import Mathlib

/-!
ExoPlanet-Hunt demo front end (`app.js`): form synchronisation, validation, prediction

A shallow embedding of `src/app.js`.  The DOM form is an ordered list of text inputs, the
results area an ordered list of child nodes, and each handler is a function on that state.

Modelling conventions
* A JavaScript object is the list of its own enumerable entries in `for … in` order.
* JavaScript numbers are exact rationals (`ℚ`), extended by `NaN` and the two infinities
  where the language produces them.  A number read from the data is the exact value of its
  double.  The product `result[key] * 100` of `displayResults` is rounded to binary64; the
  arithmetic of the manual synthesis is exact, its rounding is not modelled.
* A form input is a single-line text input: a string assigned to its value loses its line
  feeds and carriage returns.
* A `TypeError` raised by a handler is `Except.error`, carrying the DOM state reached
  when it was raised; a normal return is `Except.ok`.
* `Math.random()` is a stream `rand : ℕ → ℚ`; `rand k` is the `k`-th value drawn (from 1).
* `Number.prototype.toString` is a parameter `numToString : ℚ → String`.
-/

namespace ExoPlanetHunt

/-! ## JavaScript values -/

/-- A JSON scalar as found in `samples.json` and `synthesis_data.json`. -/
inductive Val where
  | str (s : String)
  | num (q : ℚ)
  deriving DecidableEq

/-- A JavaScript object: its entries in enumeration order. -/
abbrev JsObject := List (String × Val)

/-- The keys of an object, in enumeration order. -/
def JsObject.keys (o : JsObject) : List String := o.map Prod.fst

/-- Property read `o[k]`; `none` is `undefined`. -/
def JsObject.get (o : JsObject) (k : String) : Option Val :=
  match o with
  | [] => none
  | (k', v) :: rest => if k' = k then some v else JsObject.get rest k

/-- Property write `o[k] = v`: overwrite in place, or append a new last entry. -/
def JsObject.set (o : JsObject) (k : String) (v : Val) : JsObject :=
  match o with
  | [] => [(k, v)]
  | (k', v') :: rest => if k' = k then (k', v) :: rest else (k', v') :: JsObject.set rest k v

/-- A JavaScript number: a finite value, `NaN`, `Infinity` or `-Infinity`. -/
inductive JsNum where
  | finite (q : ℚ)
  | nan
  | posInf
  | negInf
  deriving DecidableEq

/-- The global `isNaN` on a number. -/
def JsNum.isNaN : JsNum → Bool
  | .nan => true
  | _ => false

/-- Unary minus. -/
def JsNum.neg : JsNum → JsNum
  | .finite q => .finite (-q)
  | .nan => .nan
  | .posInf => .negInf
  | .negInf => .posInf

/-- The integer nearest to a rational that is not negative, the even one on a tie. -/
def roundHalfEven (x : ℚ) : ℤ :=
  let f := Rat.floor x
  let r := x - f
  if r < 1 / 2 then f else if 1 / 2 < r then f + 1 else if f % 2 = 0 then f else f + 1

/-- The binary64 number nearest to the real `x` (round to nearest, ties to even), as the
result of one arithmetic operation on doubles: 53 significant bits, the least binade that of
the subnormals, an infinity from `2 ^ 1024` on. -/
def roundToDouble (x : ℚ) : JsNum :=
  if x = 0 then .finite 0
  else
    let a := |x|
    let e := max (Int.log 2 a) (-1022)
    let ulp : ℚ := 2 ^ (e - 52)
    let y : ℚ := roundHalfEven (a / ulp) * ulp
    if (2 : ℚ) ^ 1024 ≤ y then (if x < 0 then .negInf else .posInf)
    else .finite (if x < 0 then -y else y)

/-- The product `x * c` of doubles for a positive finite constant `c`: the exact product,
rounded to binary64. -/
def JsNum.mulPos (c : ℚ) : JsNum → JsNum
  | .finite q => roundToDouble (q * c)
  | x => x

/-- The comparison `x > c` against a finite constant. -/
def JsNum.gt (x : JsNum) (c : ℚ) : Bool :=
  match x with
  | .finite q => decide (c < q)
  | .posInf => true
  | _ => false

/-! ## Strings: white space, `trim`, and `Number(string)` -/

/-- ECMAScript `WhiteSpace` and `LineTerminator` code points (what `trim` and
`StringToNumber` strip). -/
def isStrWhiteSpaceChar (c : Char) : Bool :=
  let n := c.toNat
  n = 0x9 || n = 0xA || n = 0xB || n = 0xC || n = 0xD || n = 0x20 || n = 0xA0 ||
  n = 0x1680 || (0x2000 ≤ n && n ≤ 0x200A) || n = 0x2028 || n = 0x2029 ||
  n = 0x202F || n = 0x205F || n = 0x3000 || n = 0xFEFF

/-- The characters of `s.trim()`. -/
def jsTrim (cs : List Char) : List Char :=
  ((cs.dropWhile isStrWhiteSpaceChar).reverse.dropWhile isStrWhiteSpaceChar).reverse

/-- Value of one digit in the given base (`none` if the character is no such digit). -/
def digitVal (base : Nat) (c : Char) : Option Nat :=
  let n := c.toNat
  let d :=
    if 48 ≤ n ∧ n ≤ 57 then some (n - 48)
    else if 97 ≤ n ∧ n ≤ 102 then some (n - 87)
    else if 65 ≤ n ∧ n ≤ 70 then some (n - 55)
    else none
  match d with
  | some v => if v < base then some v else none
  | none => none

/-- Value of a digit string read left to right, starting from the accumulator `acc`;
`none` if some character is not a digit of the base. -/
def digitsVal (base : Nat) (acc : Nat) : List Char → Option Nat
  | [] => some acc
  | c :: cs =>
    match digitVal base c with
    | some v => digitsVal base (acc * base + v) cs
    | none => none

/-- Value of a non-empty digit string. -/
def digitsVal1 (base : Nat) (cs : List Char) : Option Nat :=
  match cs with
  | [] => none
  | _ => digitsVal base 0 cs

/-- The `ExponentPart` of a decimal literal: empty, or `e`/`E`, an optional sign, digits. -/
def exponentVal : List Char → Option Int
  | [] => some 0
  | c :: rest =>
    if c = 'e' ∨ c = 'E' then
      match rest with
      | '+' :: ds => (digitsVal1 10 ds).map Int.ofNat
      | '-' :: ds => (digitsVal1 10 ds).map (fun n => - Int.ofNat n)
      | ds => (digitsVal1 10 ds).map Int.ofNat
    else none

/-- The grammar `StrUnsignedDecimalLiteral`: `Infinity`, `d+ . d* exp?`, `. d+ exp?` or `d+ exp?`. -/
def unsignedDecimalVal (cs : List Char) : JsNum :=
  if cs = "Infinity".toList then .posInf
  else
    let ip := cs.takeWhile Char.isDigit
    let rest := cs.dropWhile Char.isDigit
    let fp := match rest with
      | '.' :: r => r.takeWhile Char.isDigit
      | _ => []
    let tail := match rest with
      | '.' :: r => r.dropWhile Char.isDigit
      | _ => rest
    if ip = [] ∧ fp = [] then .nan
    else
      match exponentVal tail, digitsVal 10 0 (ip ++ fp) with
      | some e, some m => .finite ((m : ℚ) * (10 : ℚ) ^ (e - (fp.length : Int)))
      | _, _ => .nan

/-- The grammar `StrNumericLiteral`: a signed decimal literal, or an unsigned `0x`, `0o`, `0b` literal. -/
def numericLiteralVal (cs : List Char) : JsNum :=
  let nonDecimal (base : Nat) (ds : List Char) : JsNum :=
    match digitsVal1 base ds with
    | some n => .finite (n : ℚ)
    | none => .nan
  match cs with
  | '0' :: 'x' :: ds => nonDecimal 16 ds
  | '0' :: 'X' :: ds => nonDecimal 16 ds
  | '0' :: 'o' :: ds => nonDecimal 8 ds
  | '0' :: 'O' :: ds => nonDecimal 8 ds
  | '0' :: 'b' :: ds => nonDecimal 2 ds
  | '0' :: 'B' :: ds => nonDecimal 2 ds
  | '+' :: ds => unsignedDecimalVal ds
  | '-' :: ds => (unsignedDecimalVal ds).neg
  | _ => unsignedDecimalVal cs

/-- The value `Number(s)` for a string `s` (ECMAScript `StringToNumber`): white space is stripped,
the empty string is `0`, anything outside the numeric grammar is `NaN`. -/
def stringToNumber (s : String) : JsNum :=
  match jsTrim s.toList with
  | [] => .finite 0
  | cs => numericLiteralVal cs

/-- The conversion `ToNumber` on a JSON scalar. -/
def Val.toNumber : Val → JsNum
  | .num q => .finite q
  | .str s => stringToNumber s

/-- The string `String(x)` of a JSON scalar, as stored by `input.value = x`. -/
def Val.toDisplay (numToString : ℚ → String) : Val → String
  | .str s => s
  | .num q => numToString q

/-- The method `Number.prototype.toFixed(f)`: the integer `n` with `n / 10^f` nearest to `|x|` (the larger
on a tie), written with `f` fraction digits, after a minus sign when `x < 0`. -/
def JsNum.toFixed (numToString : ℚ → String) (f : Nat) : JsNum → String
  | .nan => "NaN"
  | .posInf => "Infinity"
  | .negInf => "-Infinity"
  | .finite q =>
    let s := if q < 0 then "-" else ""
    let x := if q < 0 then -q else q
    if (10 : ℚ) ^ 21 ≤ x then s ++ numToString x
    else
      let n := (Rat.floor (x * (10 : ℚ) ^ f + 1 / 2)).toNat
      let m := (Nat.repr n).toList
      let m := if m.length ≤ f then List.replicate (f + 1 - m.length) '0' ++ m else m
      let k := m.length
      if f = 0 then s ++ String.mk m
      else s ++ String.mk (m.take (k - f)) ++ "." ++ String.mk (m.drop (k - f))

/-- The call `s.replace(pat, '')` with a string pattern: the first occurrence of `pat` is removed. -/
def removeFirst (pat : List Char) : List Char → List Char
  | [] => []
  | c :: cs => if pat.isPrefixOf (c :: cs) then (c :: cs).drop pat.length else c :: removeFirst pat cs

/-- The expert name `key.replace('_proba', '').replace(/_/g, ' ')`. -/
def expertName (key : String) : String :=
  String.mk ((removeFirst "_proba".toList key.toList).map fun c => if c = '_' then ' ' else c)

/-- The test `key.startsWith('expert_') && key.endsWith('_proba')`. -/
def isExpertKey (key : String) : Bool :=
  "expert_".toList.isPrefixOf key.toList && "_proba".toList.isSuffixOf key.toList

/-! ## The page state -/

/-- One `<input>` of the candidate form. -/
structure Field where
  name : String
  readOnly : Bool
  value : String
  error : Bool
  deriving DecidableEq

/-- The form: its inputs in document order. -/
abbrev Form := List Field

/-- The `final-prediction` block built by `displayResults`. -/
structure PredictionDiv where
  cssClass : Option String
  groundTruthLine : Option String
  finalPrediction : String
  score : String
  headline : Option String
  deriving DecidableEq

/-- A child of the results area. -/
inductive Node where
  | errorBox (text : String)
  | notice (text : String)
  | resultItem (expertName proba : String)
  | prediction (d : PredictionDiv)
  deriving DecidableEq

/-- The state the handlers read and write: the two loaded collections, the form, and the
children of `#results-output`. -/
structure App where
  samplesData : List JsObject
  synthesisData : List JsObject
  form : Form
  results : List Node

/-- The text of the validation failure box. -/
def validationMessage : String :=
  "Please fill all fields correctly. Non-numeric values are not allowed in number fields."

/-- The ground-truth sentinel of a manual prediction. -/
def manualEntryMarker : String := "MANUAL ENTRY"

/-- The lookup `document.getElementById('input-' + name)`: the first input of that name, or `null`. -/
def Form.getElementById (form : Form) (name : String) : Option Field :=
  form.find? fun f => decide (f.name = name)

/-- The assignment `document.getElementById('input-' + name).value = v`; `none` when the element is `null`. -/
def Form.setValueById : Form → String → String → Option Form
  | [], _, _ => none
  | f :: rest, name, v =>
    if f.name = name then some ({ f with value := v } :: rest)
    else (Form.setValueById rest name v).map fun rest' => f :: rest'

/-! ## `createEmptyForm` and `handleSampleChange` -/

/-- One empty input per key of `sample`; `candidate_id` and `disposition` are read-only. -/
def createEmptyForm (sample : JsObject) : Form :=
  sample.keys.map fun key =>
    { name := key
      readOnly := decide (key = "candidate_id") || decide (key = "disposition")
      value := ""
      error := false }

/-- The loop of the "none" branch: every input that is not read-only is emptied. -/
def clearEditable (form : Form) : Form :=
  form.map fun input => if input.readOnly then input else { input with value := "" }

/-- The value sanitisation of a text input: the line feeds (U+000A) and carriage returns
(U+000D) of an assigned string are dropped. -/
def stripNewlines (s : String) : String :=
  String.mk (s.toList.filter fun c => decide (c.toNat ≠ 10 ∧ c.toNat ≠ 13))

/-- The string held by the text input after `input.value = sample[key]`: `String(sample[key])`
without its line breaks. -/
def shownValue (numToString : ℚ → String) (sample : JsObject) (key : String) : String :=
  match sample.get key with
  | some v => stripNewlines (v.toDisplay numToString)
  | none => "undefined"

/-- The loop of the "known sample" branch: for each key of the sample, in order, the input
of that name (if there is one) takes the sample's value. -/
def populateFields (numToString : ℚ → String) (sample : JsObject) : List String → Form → Form
  | [], form => form
  | key :: keys, form =>
    match form.setValueById key (shownValue numToString sample key) with
    | some form' => populateFields numToString sample keys form'
    | none => populateFields numToString sample keys form

/-- The search `data.find(s => s.candidate_id === id)`, used on both collections. -/
def findById (data : List JsObject) (id : String) : Option JsObject :=
  data.find? fun s => decide (s.get "candidate_id" = some (Val.str id))

/-- The `change` handler of the sample selector, for the selected option value. -/
def handleSampleChange (numToString : ℚ → String) (selectedId : String) (app : App) :
    Except App App :=
  if selectedId = "" then
    let form1 := clearEditable app.form
    match form1.setValueById "candidate_id" "" with
    | none => .error { app with form := form1 }
    | some form2 =>
      match form2.setValueById "disposition" "" with
      | none => .error { app with form := form2 }
      | some form3 => .ok { app with form := form3 }
  else
    match findById app.samplesData selectedId with
    | some sample => .ok { app with form := populateFields numToString sample sample.keys app.form }
    | none => .ok app

/-! ## `validateInputs` -/

/-- The body of the validation loop for one input, with the running `isValid`. -/
def validateStep (input : Field) (isValid : Bool) : Field × Bool :=
  let input := { input with error := false }
  if input.readOnly then (input, isValid)
  else if jsTrim input.value.toList = [] then ({ input with error := true }, false)
  else if input.name ≠ "dataset" ∧ input.name ≠ "disposition" ∧ input.name ≠ "tess_disp" ∧
      (stringToNumber input.value).isNaN = true then
    ({ input with error := true }, false)
  else (input, isValid)

/-- The validation loop over the inputs, threading `isValid`. -/
def validateLoop : Form → Bool → Form × Bool
  | [], isValid => ([], isValid)
  | input :: rest, isValid =>
    let r := validateStep input isValid
    let rs := validateLoop rest r.2
    (r.1 :: rs.1, rs.2)

/-- The function `validateInputs`: the new state and the returned `isValid`. -/
def validateInputs (app : App) : App × Bool :=
  let r := validateLoop app.form true
  ({ app with form := r.1, results := if r.2 then [] else [Node.errorBox validationMessage] }, r.2)

/-! ## `displayResults` -/

/-- The `result-item` lines: one per key that starts with `expert_` and ends with `_proba`. -/
def expertItems (numToString : ℚ → String) (result : JsObject) : List Node :=
  result.keys.filterMap fun key =>
    if isExpertKey key then
      let x : JsNum := match result.get key with
        | some v => v.toNumber
        | none => .nan
      some (Node.resultItem (expertName key) ((x.mulPos 100).toFixed numToString 2))
    else none

/-- The function `displayResults(result, groundTruth)`.  `result.final_score.toFixed` raises a
`TypeError` unless `final_score` is a number; the block is then never appended. -/
def displayResults (numToString : ℚ → String) (result : JsObject) (groundTruth : String)
    (app : App) : Except App App :=
  let header := if groundTruth = manualEntryMarker then
    [Node.notice "Prediction based on manual input."] else []
  let items := expertItems numToString result
  let above : Bool := match result.get "final_score" with
    | some v => v.toNumber.gt (1 / 2)
    | none => false
  let finalPrediction := if above then "PLANET" else "FALSE_POSITIVE"
  match result.get "final_score" with
  | some (.num q) =>
    let score := (JsNum.finite q).toFixed numToString 4
    let block : PredictionDiv :=
      if groundTruth ≠ manualEntryMarker then
        let isCorrect := decide (finalPrediction = groundTruth)
        { cssClass := some (if isCorrect then "correct" else "incorrect")
          groundTruthLine := some groundTruth
          finalPrediction := finalPrediction
          score := score
          headline := some (if isCorrect then "Result: Correct" else "Result: Incorrect") }
      else
        { cssClass := none, groundTruthLine := none, finalPrediction := finalPrediction,
          score := score, headline := none }
    .ok { app with results := header ++ items ++ [Node.prediction block] }
  | _ => .error { app with results := header ++ items }

/-! ## `handlePredict` -/

/-- The padding `String(i).padStart(2, '0')`. -/
def padStart2 (s : String) : String :=
  String.mk (List.replicate (2 - s.length) '0') ++ s

/-- The key `expert_NN_proba` of the `i`-th expert. -/
def expertKey (i : Nat) : String :=
  "expert_" ++ padStart2 (Nat.repr i) ++ "_proba"

/-- The loop `for (i = 1; i <= 9; i++)` of the manual branch: `fakeResult` and `expertProbas`
after it, where the `i`-th pass draws `rand i`. -/
def drawExperts (rand : ℕ → ℚ) : JsObject × List ℚ :=
  (List.range' 1 9).foldl
    (fun acc i =>
      let proba := rand i * (35 / 100)
      (acc.1.set (expertKey i) (Val.num proba), acc.2 ++ [proba]))
    ([], [])

/-- The object `fakeResult` of the manual branch; the noise term uses the tenth draw. -/
def synthesize (rand : ℕ → ℚ) : JsObject :=
  let loop := drawExperts rand
  let avgProba := loop.2.foldl (fun a b => a + b) 0 / (loop.2.length : ℚ)
  loop.1.set "final_score" (Val.num (max 0 (avgProba + (rand 10 - 1 / 2) * (1 / 10))))

/-- The manual branch of `handlePredict`: validate, then synthesise and display. -/
def manualPredict (numToString : ℚ → String) (rand : ℕ → ℚ) (app : App) : Except App App :=
  let r := validateInputs app
  if r.2 = false then .ok r.1
  else displayResults numToString (synthesize rand) manualEntryMarker r.1

/-- The function `handlePredict`.  `fuel` bounds the depth of the call stack: `none` means the
depth was exhausted before the call returned. -/
def handlePredict (numToString : ℚ → String) (rand : ℕ → ℚ) : ℕ → App → Option (Except App App)
  | 0, _ => none
  | fuel + 1, app =>
    match app.form.getElementById "candidate_id" with
    | none => some (manualPredict numToString rand app)
    | some candidateIdInput =>
      if candidateIdInput.value = "" then some (manualPredict numToString rand app)
      else
        match app.form.getElementById "disposition" with
        | none => some (.error app)
        | some dispositionInput =>
          match findById app.synthesisData candidateIdInput.value with
          | some result => some (displayResults numToString result dispositionInput.value app)
          | none =>
            let r := validateInputs app
            if r.2 = false then some (.ok r.1)
            else handlePredict numToString rand fuel r.1

/-! ## The validator in the words of the specification -/

/-- The numeric-exempt names of the specification: `dataset`, `disposition`, `tess_disp`. -/
def numericExempt : List String := ["dataset", "disposition", "tess_disp"]

/-- The specification's rule for an invalid field: it is not read-only, and its trimmed value
is empty or its name is not numeric-exempt and its value does not parse as a number. -/
def fieldInvalid (f : Field) : Bool :=
  !f.readOnly &&
    (decide (jsTrim f.value.toList = []) ||
      (decide (f.name ∉ numericExempt) && (stringToNumber f.value).isNaN))

/-- A field with its error flag set as the specification's rule says. -/
def Field.flagged (f : Field) : Field := { f with error := fieldInvalid f }

/-! ## Routing of `handlePredict` -/

/-- What `document.getElementById('input-' + name).value` reads; `none` when there is no such
input. -/
def Form.value? (form : Form) (name : String) : Option String :=
  (form.getElementById name).map Field.value

/-- Manual mode: the `candidate_id` input is absent or holds the empty string. -/
def ManualMode (app : App) : Prop :=
  app.form.value? "candidate_id" = none ∨ app.form.value? "candidate_id" = some ""

/-- Lookup miss: the `candidate_id` input holds the non-empty `c`, the form has a `disposition`
input, and no synthesis record has `candidate_id` equal to `c`. -/
def LookupMiss (app : App) (c : String) : Prop :=
  app.form.value? "candidate_id" = some c ∧ c ≠ "" ∧
    (app.form.value? "disposition").isSome = true ∧ findById app.synthesisData c = none

/-- Lookup hit: the `candidate_id` input holds the non-empty `c`, the `disposition` input
holds `g`, and `r` is the first synthesis record with `candidate_id` equal to `c`. -/
def LookupHit (app : App) (c g : String) (r : JsObject) : Prop :=
  app.form.value? "candidate_id" = some c ∧ c ≠ "" ∧
    app.form.value? "disposition" = some g ∧ findById app.synthesisData c = some r

/-! ## Manual synthesis, in closed form -/

/-- The score of a manual prediction as a function of the draws: the floor at zero of the mean
of the nine expert values plus the noise term of the tenth draw. -/
def manualScore (rand : ℕ → ℚ) : ℚ :=
  max 0 (((List.range' 1 9).map fun i => 35 / 100 * rand i).sum / 9
    + (rand 10 - 1 / 2) * (1 / 10))

/-- Each of the first ten draws lies in `[0, 1)`, the range of `Math.random()`. -/
def UnitDraws (rand : ℕ → ℚ) : Prop :=
  ∀ k, 1 ≤ k → k ≤ 10 → 0 ≤ rand k ∧ rand k < 1

/-- The state a handler leaves behind, whether it returned or raised. -/
def outcomeState : Except App App → App
  | .ok app => app
  | .error app => app

/-! ## Concrete inputs -/

/-- The sample `K001` of the specification's scenarios. -/
def sampleK001 : JsObject :=
  [("candidate_id", .str "K001"), ("disposition", .str "PLANET"), ("feat_a", .num 1)]

/-- The synthesis record of `K001`, with `final_score = 0.82`. -/
def recordK001 : JsObject :=
  [("candidate_id", .str "K001"), ("final_score", .num (82 / 100)),
   ("expert_01_proba", .num (9 / 10))]

/-- A form of the shape of `sampleK001` holding the given three values. -/
def formK001 (candidateId disposition featA : String) : Form :=
  [⟨"candidate_id", true, candidateId, false⟩, ⟨"disposition", true, disposition, false⟩,
   ⟨"feat_a", false, featA, false⟩]

/-- A page state over the `K001` data with the given form values and an empty results area. -/
def appK001 (candidateId disposition featA : String) : App :=
  { samplesData := [sampleK001], synthesisData := [recordK001],
    form := formK001 candidateId disposition featA, results := [] }

/-- A random source that always returns `0.5`. -/
def halfDraws : ℕ → ℚ := fun _ => 1 / 2

/-- The sample `UNKNOWN99`: present in the registry, absent from the synthesis data. -/
def sampleUnknown99 : JsObject :=
  [("candidate_id", .str "UNKNOWN99"), ("disposition", .str "PLANET"), ("feat_a", .str "1.5")]

/-- The freshly loaded page whose registry holds `K001` and `UNKNOWN99` and whose synthesis
data holds `K001` only. -/
def appUnknown99 : App :=
  { samplesData := [sampleK001, sampleUnknown99], synthesisData := [recordK001],
    form := createEmptyForm sampleK001, results := [] }

/-! ## Selection followed by prediction, and the shape of a form -/

/-- A selection event followed by a click on predict; a raised `TypeError` ends the sequence. -/
def selectThenPredict (numToString : ℚ → String) (rand : ℕ → ℚ) (fuel : ℕ)
    (selectedId : String) (app : App) : Option (Except App App) :=
  match handleSampleChange numToString selectedId app with
  | .ok app' => handlePredict numToString rand fuel app'
  | .error app' => some (.error app')

/-- The `final-prediction` block in a results area, if one was rendered. -/
def predictionBlock? (results : List Node) : Option PredictionDiv :=
  results.findSome? fun node =>
    match node with
    | .prediction d => some d
    | _ => none

/-- The shape of a form: the names of its inputs with their read-only flags, in order. -/
def Form.shape (form : Form) : List (String × Bool) :=
  form.map fun f => (f.name, f.readOnly)

/-- A sample of the registry with an empty `candidate_id`. -/
def sampleEmptyId : JsObject :=
  [("candidate_id", .str ""), ("disposition", .str "PLANET")]

/-- The synthesis record of the empty `candidate_id`, with `final_score = 0.82`. -/
def recordEmptyId : JsObject :=
  [("candidate_id", .str ""), ("final_score", .num (82 / 100)),
   ("expert_01_proba", .num (9 / 10))]

/-- The freshly loaded page over the sample and record of the empty `candidate_id`. -/
def appEmptyId : App :=
  { samplesData := [sampleEmptyId], synthesisData := [recordEmptyId],
    form := createEmptyForm sampleEmptyId, results := [] }

/-- The same page with the disposition `FALSE_POSITIVE` for `K001`. -/
def appK001FalsePositive : App :=
  { samplesData := [[("candidate_id", .str "K001"), ("disposition", .str "FALSE_POSITIVE"),
      ("feat_a", .num 1)]],
    synthesisData := [recordK001],
    form := createEmptyForm sampleK001, results := [] }

/-! ## Reading a report -/

/-- The expert lines of a results area, in order: the name and the percentage text of each
`result-item`. -/
def expertLines (results : List Node) : List (String × String) :=
  results.filterMap fun node =>
    match node with
    | .resultItem name proba => some (name, proba)
    | _ => none

/-- The percentage text of the line of `key`: `(result[key] * 100).toFixed(2)`. -/
def probaText (numToString : ℚ → String) (result : JsObject) (key : String) : String :=
  let x : JsNum := match result.get key with
    | some v => v.toNumber
    | none => .nan
  (x.mulPos 100).toFixed numToString 2

/-- The expert name in the words of the specification: the key with its last six characters
(the suffix `_proba`) removed and every underscore replaced by a space. -/
def suffixStrippedName (key : String) : String :=
  String.mk ((key.toList.take (key.toList.length - 6)).map fun c => if c = '_' then ' ' else c)

/-- The pattern `expert_*_proba` read as a glob: `expert_`, then any characters, then
`_proba`. -/
def MatchesExpertGlob (key : String) : Prop :=
  ∃ mid : List Char, key.toList = "expert_".toList ++ mid ++ "_proba".toList

/-- A result with an expert key in which `_proba` occurs before the suffix. -/
def resultInnerProba : JsObject :=
  [("expert_proba_1_proba", .num (1 / 2)), ("final_score", .num (1 / 10))]

/-! ## Inputs with line breaks -/

/-- A sample whose `candidate_id` holds a line feed. -/
def sampleLineBreakId : JsObject :=
  [("candidate_id", .str "K\n001"), ("disposition", .str "PLANET")]

/-- The synthesis record of that `candidate_id`, with `final_score = 0.82`. -/
def recordLineBreakId : JsObject :=
  [("candidate_id", .str "K\n001"), ("final_score", .num (82 / 100)),
   ("expert_01_proba", .num (9 / 10))]

/-- The freshly loaded page over the sample and record whose `candidate_id` holds a line
feed. -/
def appLineBreakId : App :=
  { samplesData := [sampleLineBreakId], synthesisData := [recordLineBreakId],
    form := createEmptyForm sampleLineBreakId, results := [] }

/-- A sample whose `disposition` holds a line feed. -/
def sampleLineBreakDisposition : JsObject :=
  [("candidate_id", .str "K001"), ("disposition", .str "PLA\nNET")]

/-- The freshly loaded page over the sample whose `disposition` holds a line feed. -/
def appLineBreakDisposition : App :=
  { samplesData := [sampleLineBreakDisposition], synthesisData := [recordK001],
    form := createEmptyForm sampleLineBreakDisposition, results := [] }

/-! # Lemmas -/

/-! ## Lemmas on `validateInputs` -/

theorem not_mem_numericExempt (n : String) :
    n ∉ numericExempt ↔ n ≠ "dataset" ∧ n ≠ "disposition" ∧ n ≠ "tess_disp" := by
  simp [numericExempt]

theorem validateStep_eq (f : Field) (b : Bool) :
    validateStep f b = (f.flagged, b && !fieldInvalid f) := by
  obtain ⟨n, ro, v, e⟩ := f
  have hx := not_mem_numericExempt n
  unfold validateStep Field.flagged fieldInvalid
  cases ro
  · by_cases h1 : jsTrim v.data = []
    · simp [h1]
    · by_cases h2 : n ∉ numericExempt
      · have h2' := hx.mp h2
        cases h3 : (stringToNumber v).isNaN <;> simp [h1, h2, h2', h3]
      · have h2' : ¬ (n ≠ "dataset" ∧ n ≠ "disposition" ∧ n ≠ "tess_disp") :=
          fun h => h2 (hx.mpr h)
        have h2'' : n ∈ numericExempt := by simpa using h2
        have h4 : ¬ (¬n = "dataset" ∧ ¬n = "disposition" ∧ ¬n = "tess_disp" ∧
            (stringToNumber v).isNaN = true) := fun h => h2' ⟨h.1, h.2.1, h.2.2.1⟩
        simp [h1, h2'', h4]
  · simp

theorem validateLoop_eq (form : Form) (b : Bool) :
    validateLoop form b = (form.map Field.flagged, b && form.all fun f => !fieldInvalid f) := by
  induction form generalizing b with
  | nil => simp [validateLoop]
  | cons f rest ih =>
    simp only [validateLoop, validateStep_eq, ih, List.map_cons, List.all_cons, Bool.and_assoc]

theorem fieldInvalid_flagged (f : Field) : fieldInvalid f.flagged = fieldInvalid f := rfl

theorem flagged_flagged (f : Field) : f.flagged.flagged = f.flagged := rfl

theorem validateInputs_form (app : App) :
    (validateInputs app).1.form = app.form.map Field.flagged := by
  simp [validateInputs, validateLoop_eq]

theorem validateInputs_valid (app : App) :
    (validateInputs app).2 = app.form.all fun f => !fieldInvalid f := by
  simp [validateInputs, validateLoop_eq]

theorem validateInputs_results (app : App) :
    (validateInputs app).1.results =
      if (validateInputs app).2 then [] else [Node.errorBox validationMessage] := by
  simp [validateInputs]

theorem validateInputs_data (app : App) :
    (validateInputs app).1.samplesData = app.samplesData ∧
      (validateInputs app).1.synthesisData = app.synthesisData := by
  simp [validateInputs]

theorem getElementById_map_flagged (form : Form) (n : String) :
    Form.getElementById (form.map Field.flagged) n =
      (form.getElementById n).map Field.flagged := by
  induction form with
  | nil => rfl
  | cons f rest ih =>
    simp only [Form.getElementById, List.map_cons, List.find?_cons] at ih ⊢
    by_cases h : f.name = n
    · simp [Field.flagged, h]
    · simpa [Field.flagged, h] using ih

theorem value?_map_flagged (form : Form) (n : String) :
    Form.value? (form.map Field.flagged) n = form.value? n := by
  simp only [Form.value?, getElementById_map_flagged, Option.map_map]
  rfl

theorem validateInputs_idem (app : App) :
    validateInputs (validateInputs app).1 = validateInputs app := by
  have hmap : (app.form.map Field.flagged).map Field.flagged = app.form.map Field.flagged := by
    rw [List.map_map]; rfl
  have hall : ((app.form.map Field.flagged).all fun f => !fieldInvalid f) =
      app.form.all fun f => !fieldInvalid f := by
    rw [List.all_map]; rfl
  simp only [validateInputs, validateLoop_eq, Bool.true_and, hmap, hall]

theorem handlePredict_manual (numToString : ℚ → String) (rand : ℕ → ℚ) (fuel : ℕ) (app : App)
    (h : ManualMode app) :
    handlePredict numToString rand (fuel + 1) app = some (manualPredict numToString rand app) := by
  unfold ManualMode Form.value? at h
  unfold handlePredict
  cases hq : app.form.getElementById "candidate_id" with
  | none => rfl
  | some f =>
    have hv : f.value = "" := by simpa [hq] using h
    simp [hv]

theorem handlePredict_hit (numToString : ℚ → String) (rand : ℕ → ℚ) (fuel : ℕ) (app : App)
    (c g : String) (r : JsObject) (h : LookupHit app c g r) :
    handlePredict numToString rand (fuel + 1) app = some (displayResults numToString r g app) := by
  obtain ⟨hc, hne, hg, hr⟩ := h
  unfold Form.value? at hc hg
  unfold handlePredict
  cases hq : app.form.getElementById "candidate_id" with
  | none => simp [hq] at hc
  | some f =>
    have hv : f.value = c := by simpa [hq] using hc
    cases hd : app.form.getElementById "disposition" with
    | none => simp [hd] at hg
    | some d =>
      have hdv : d.value = g := by simpa [hd] using hg
      simp [hv, hne, hr, hdv]

theorem handlePredict_miss (numToString : ℚ → String) (rand : ℕ → ℚ) (fuel : ℕ) (app : App)
    (c : String) (h : LookupMiss app c) :
    handlePredict numToString rand (fuel + 1) app =
      if (validateInputs app).2 = false then some (.ok (validateInputs app).1)
      else handlePredict numToString rand fuel (validateInputs app).1 := by
  obtain ⟨hc, hne, hg, hr⟩ := h
  unfold Form.value? at hc hg
  conv_lhs => unfold handlePredict
  cases hq : app.form.getElementById "candidate_id" with
  | none => simp [hq] at hc
  | some f =>
    have hv : f.value = c := by simpa [hq] using hc
    cases hd : app.form.getElementById "disposition" with
    | none => simp [hd] at hg
    | some d => simp [hv, hne, hr]

theorem lookupMiss_validate (app : App) (c : String) (h : LookupMiss app c) :
    LookupMiss (validateInputs app).1 c := by
  obtain ⟨hc, hne, hg, hr⟩ := h
  refine ⟨?_, hne, ?_, ?_⟩
  · rw [validateInputs_form, value?_map_flagged]; exact hc
  · rw [validateInputs_form, value?_map_flagged]; exact hg
  · rw [(validateInputs_data app).2]; exact hr

/-- On a lookup miss with valid inputs the call never returns, whatever the stack depth. -/
theorem handlePredict_miss_valid (numToString : ℚ → String) (rand : ℕ → ℚ) (fuel : ℕ) :
    ∀ (app : App) (c : String), LookupMiss app c → (validateInputs app).2 = true →
      handlePredict numToString rand fuel app = none := by
  induction fuel with
  | zero => intro app c _ _; rfl
  | succ n ih =>
    intro app c hm hv
    rw [handlePredict_miss numToString rand n app c hm, hv]
    simp only [Bool.true_eq_false, if_false]
    exact ih _ c (lookupMiss_validate app c hm) (by rw [validateInputs_idem]; exact hv)

/-! ## Lemmas on the manual synthesis -/

theorem synthesize_eq (rand : ℕ → ℚ) :
    synthesize rand =
      [("expert_01_proba", Val.num (35 / 100 * rand 1)),
       ("expert_02_proba", Val.num (35 / 100 * rand 2)),
       ("expert_03_proba", Val.num (35 / 100 * rand 3)),
       ("expert_04_proba", Val.num (35 / 100 * rand 4)),
       ("expert_05_proba", Val.num (35 / 100 * rand 5)),
       ("expert_06_proba", Val.num (35 / 100 * rand 6)),
       ("expert_07_proba", Val.num (35 / 100 * rand 7)),
       ("expert_08_proba", Val.num (35 / 100 * rand 8)),
       ("expert_09_proba", Val.num (35 / 100 * rand 9)),
       ("final_score", Val.num (manualScore rand))] := by
  have h1 : expertKey 1 = "expert_01_proba" := by decide
  have h2 : expertKey 2 = "expert_02_proba" := by decide
  have h3 : expertKey 3 = "expert_03_proba" := by decide
  have h4 : expertKey 4 = "expert_04_proba" := by decide
  have h5 : expertKey 5 = "expert_05_proba" := by decide
  have h6 : expertKey 6 = "expert_06_proba" := by decide
  have h7 : expertKey 7 = "expert_07_proba" := by decide
  have h8 : expertKey 8 = "expert_08_proba" := by decide
  have h9 : expertKey 9 = "expert_09_proba" := by decide
  simp only [synthesize, drawExperts, manualScore, List.range', List.foldl, JsObject.set, h1, h2,
    h3, h4, h5, h6, h7, h8, h9, List.map, List.sum_cons, List.sum_nil, List.nil_append,
    List.cons_append, List.length]
  simp
  ring_nf
  simp

theorem manualScore_nonneg (rand : ℕ → ℚ) : 0 ≤ manualScore rand := le_max_left _ _

theorem manualScore_lt (rand : ℕ → ℚ) (h : UnitDraws rand) : manualScore rand < 4 / 10 := by
  have e1 := h 1 (by norm_num) (by norm_num)
  have e2 := h 2 (by norm_num) (by norm_num)
  have e3 := h 3 (by norm_num) (by norm_num)
  have e4 := h 4 (by norm_num) (by norm_num)
  have e5 := h 5 (by norm_num) (by norm_num)
  have e6 := h 6 (by norm_num) (by norm_num)
  have e7 := h 7 (by norm_num) (by norm_num)
  have e8 := h 8 (by norm_num) (by norm_num)
  have e9 := h 9 (by norm_num) (by norm_num)
  have e10 := h 10 (by norm_num) (by norm_num)
  unfold manualScore
  apply max_lt (by norm_num)
  simp only [List.range', List.map, List.sum_cons, List.sum_nil]
  linarith [e1.2, e2.2, e3.2, e4.2, e5.2, e6.2, e7.2, e8.2, e9.2, e10.2]

theorem halfDraws_unit : UnitDraws halfDraws := by
  intro k _ _
  simp only [halfDraws]
  norm_num

/-! ## Lemmas on selection -/

theorem value?_cons (f : Field) (rest : Form) (n : String) :
    Form.value? (f :: rest) n = if f.name = n then some f.value else Form.value? rest n := by
  unfold Form.value? Form.getElementById
  by_cases h : f.name = n <;> simp [List.find?_cons, h]

theorem value?_nil (n : String) : Form.value? [] n = none := rfl

theorem setValueById_none (form : Form) (k v : String) :
    form.setValueById k v = none ↔ form.value? k = none := by
  induction form with
  | nil => simp [Form.setValueById, value?_nil]
  | cons f rest ih =>
    rw [value?_cons]
    unfold Form.setValueById
    by_cases h : f.name = k
    · simp [h]
    · simpa [h] using ih

theorem value?_setValueById (form form' : Form) (k v n : String)
    (h : form.setValueById k v = some form') :
    form'.value? n = if n = k then some v else form.value? n := by
  induction form generalizing form' with
  | nil => simp [Form.setValueById] at h
  | cons f rest ih =>
    unfold Form.setValueById at h
    by_cases hk : f.name = k
    · simp only [hk, if_true, Option.some.injEq] at h
      subst h
      rw [value?_cons, value?_cons]
      by_cases hn : n = k
      · simp [hn, hk]
      · have : ¬ k = n := fun e => hn e.symm
        simp [hn, hk, this]
    · simp only [hk, if_false, Option.map_eq_some'] at h
      obtain ⟨rest', hr, rfl⟩ := h
      rw [value?_cons, value?_cons, ih rest' hr]
      by_cases hn : n = k
      · have : ¬ f.name = n := fun e => hk (e.trans hn)
        simp [hn, this]
        intro e; exact absurd e hk
      · simp [hn]

theorem value?_populateFields (numToString : ℚ → String) (sample : JsObject)
    (keys : List String) (form : Form) (n : String) :
    (populateFields numToString sample keys form).value? n =
      if n ∈ keys ∧ (form.value? n).isSome = true then some (shownValue numToString sample n)
      else form.value? n := by
  induction keys generalizing form with
  | nil => simp [populateFields]
  | cons k keys ih =>
    unfold populateFields
    cases hs : form.setValueById k (shownValue numToString sample k) with
    | none =>
      have hk := (setValueById_none form k _).mp hs
      simp only [ih]
      by_cases hn : n = k
      · subst hn; simp [hk]
      · simp [hn]
    | some form' =>
      have hv := value?_setValueById form form' k _ n hs
      have hsome : (form.value? k).isSome = true := by
        cases hk : form.value? k with
        | none => rw [(setValueById_none form k _).mpr hk] at hs; exact Option.noConfusion hs
        | some _ => rfl
      simp only [ih, hv]
      by_cases hn : n = k
      · subst hn
        simp [hsome]
      · simp [hn]

theorem findById_of_unique (data : List JsObject) (s : JsObject) (c : String)
    (huniq : (data.map fun x => x.get "candidate_id").Nodup) (hs : s ∈ data)
    (hc : s.get "candidate_id" = some (Val.str c)) : findById data c = some s := by
  unfold findById
  cases hf : data.find? (fun x => decide (x.get "candidate_id" = some (Val.str c))) with
  | none =>
    have := List.find?_eq_none.mp hf s hs
    simp [hc] at this
  | some s' =>
    have hmem := List.mem_of_find?_eq_some hf
    have hp : s'.get "candidate_id" = some (Val.str c) := by simpa using List.find?_some hf
    have := List.inj_on_of_nodup_map huniq hmem hs (hp.trans hc.symm)
    rw [this]

/-! ## Lemmas on the manual report -/

theorem displayResults_manual (numToString : ℚ → String) (rand : ℕ → ℚ) (h : UnitDraws rand)
    (app : App) :
    displayResults numToString (synthesize rand) manualEntryMarker app =
      .ok { app with
        results :=
          Node.notice "Prediction based on manual input." ::
            (expertItems numToString (synthesize rand) ++
              [Node.prediction
                { cssClass := none, groundTruthLine := none, finalPrediction := "FALSE_POSITIVE",
                  score := (JsNum.finite (manualScore rand)).toFixed numToString 4,
                  headline := none }]) } := by
  have hget : (synthesize rand).get "final_score" = some (Val.num (manualScore rand)) := by
    rw [synthesize_eq]; rfl
  have hle : manualScore rand ≤ 2⁻¹ := by
    have := manualScore_lt rand h
    rw [inv_eq_one_div]
    linarith
  simp [displayResults, hget, Val.toNumber, JsNum.gt, hle]

/-! ## Lemmas on clearing the form and on the report -/

theorem setValueById_eq_map (form : Form) (k v : String)
    (hnd : (form.map Field.name).Nodup) (hk : k ∈ form.map Field.name) :
    form.setValueById k v =
      some (form.map fun f => if f.name = k then { f with value := v } else f) := by
  induction form with
  | nil => simp at hk
  | cons f rest ih =>
    rw [List.map_cons, List.nodup_cons] at hnd
    unfold Form.setValueById
    by_cases h : f.name = k
    · have hrest : (rest.map fun g => if g.name = k then { g with value := v } else g) = rest := by
        conv_rhs => rw [← List.map_id rest]
        apply List.map_congr_left
        intro g hg
        have : g.name ≠ k := by
          intro e
          apply hnd.1
          rw [h, ← e]
          exact List.mem_map_of_mem Field.name hg
        simp [this]
      simp [h, hrest]
    · have hk' : k ∈ rest.map Field.name := by
        rcases List.mem_cons.mp hk with e | e
        · exact absurd e.symm h
        · exact e
      simp [h, ih hnd.2 hk']

theorem shape_createEmptyForm (sample : JsObject) :
    (createEmptyForm sample).shape =
      sample.keys.map fun key =>
        (key, decide (key = "candidate_id") || decide (key = "disposition")) := by
  simp [createEmptyForm, Form.shape, List.map_map, Function.comp_def]

theorem names_of_shape (form : Form) (sample : JsObject)
    (h : form.shape = (createEmptyForm sample).shape) :
    form.map Field.name = sample.keys := by
  have := congrArg (List.map Prod.fst) h
  rw [shape_createEmptyForm] at this
  simpa [Form.shape, List.map_map, Function.comp_def] using this

theorem readOnly_of_shape (form : Form) (sample : JsObject)
    (h : form.shape = (createEmptyForm sample).shape) (f : Field) (hf : f ∈ form) :
    f.readOnly = (decide (f.name = "candidate_id") || decide (f.name = "disposition")) := by
  have hmem : (f.name, f.readOnly) ∈ form.shape := List.mem_map_of_mem _ hf
  rw [h, shape_createEmptyForm] at hmem
  obtain ⟨k, _, hk⟩ := List.mem_map.mp hmem
  have h1 : k = f.name := congrArg Prod.fst hk
  have h2 := congrArg Prod.snd hk
  simp only at h2
  rw [← h2, h1]

theorem handleSampleChange_none_eq (numToString : ℚ → String) (app : App)
    (hnd : (app.form.map Field.name).Nodup)
    (hc : "candidate_id" ∈ app.form.map Field.name)
    (hd : "disposition" ∈ app.form.map Field.name) :
    handleSampleChange numToString "" app =
      .ok { app with form :=
        ((clearEditable app.form).map fun f =>
          if f.name = "candidate_id" then { f with value := "" } else f).map fun f =>
            if f.name = "disposition" then { f with value := "" } else f } := by
  have hn1 : (clearEditable app.form).map Field.name = app.form.map Field.name := by
    unfold clearEditable
    rw [List.map_map]
    apply List.map_congr_left
    intro f _
    by_cases h : f.readOnly <;> simp [h]
  have hn2 : (((clearEditable app.form).map fun f =>
      if f.name = "candidate_id" then { f with value := "" } else f)).map Field.name =
      app.form.map Field.name := by
    rw [← hn1, List.map_map]
    apply List.map_congr_left
    intro f _
    by_cases h : f.name = "candidate_id" <;> simp [h]
  unfold handleSampleChange
  simp only [if_true]
  rw [setValueById_eq_map _ _ _ (hn1 ▸ hnd) (hn1 ▸ hc)]
  simp only
  rw [setValueById_eq_map _ _ _ (hn2 ▸ hnd) (hn2 ▸ hd)]

theorem displayResults_numeric (numToString : ℚ → String) (r : JsObject) (g : String)
    (q : ℚ) (app : App) (hq : r.get "final_score" = some (Val.num q))
    (hg : g ≠ manualEntryMarker) :
    displayResults numToString r g app =
      .ok { app with
        results := expertItems numToString r ++
          [Node.prediction
            { cssClass := some
                (if (if 1 / 2 < q then "PLANET" else "FALSE_POSITIVE") = g then "correct"
                  else "incorrect")
              groundTruthLine := some g
              finalPrediction := if 1 / 2 < q then "PLANET" else "FALSE_POSITIVE"
              score := (JsNum.finite q).toFixed numToString 4
              headline := some
                (if (if 1 / 2 < q then "PLANET" else "FALSE_POSITIVE") = g then "Result: Correct"
                  else "Result: Incorrect") }] } := by
  unfold displayResults
  simp only [hq, hg, if_false, Val.toNumber, JsNum.gt, List.nil_append, ne_eq, not_false_eq_true,
    if_true, decide_eq_true_eq]

theorem predictionBlock?_expertItems (numToString : ℚ → String) (r : JsObject)
    (rest : List Node) :
    predictionBlock? (expertItems numToString r ++ rest) = predictionBlock? rest := by
  unfold predictionBlock? expertItems
  induction r.keys with
  | nil => rfl
  | cons k ks ih =>
    by_cases hk : isExpertKey k
    · simp only [List.filterMap_cons, hk, if_true, List.cons_append, List.findSome?_cons]
      exact ih
    · simp only [List.filterMap_cons, hk]
      exact ih

theorem handleSampleChange_known (numToString : ℚ → String) (app : App) (s : JsObject)
    (c : String) (hne : c ≠ "")
    (huniq : (app.samplesData.map fun x => x.get "candidate_id").Nodup)
    (hs : s ∈ app.samplesData) (hc : s.get "candidate_id" = some (Val.str c)) :
    handleSampleChange numToString c app =
      .ok { app with form := populateFields numToString s s.keys app.form } := by
  unfold handleSampleChange
  rw [if_neg hne, findById_of_unique app.samplesData s c huniq hs hc]

theorem mem_keys_of_get (o : JsObject) (k : String) (v : Val) (h : o.get k = some v) :
    k ∈ o.keys := by
  induction o with
  | nil => simp [JsObject.get] at h
  | cons e rest ih =>
    obtain ⟨k', v'⟩ := e
    unfold JsObject.get at h
    by_cases hk : k' = k
    · simp [JsObject.keys, hk]
    · simp only [hk, if_false] at h
      have := ih h
      simp only [JsObject.keys, List.map_cons, List.mem_cons] at this ⊢
      exact Or.inr this

theorem stripNewlines_of_free (s : String)
    (h : ∀ ch ∈ s.toList, ch.toNat ≠ 10 ∧ ch.toNat ≠ 13) : stripNewlines s = s := by
  unfold stripNewlines
  have : s.toList.filter (fun c => decide (c.toNat ≠ 10 ∧ c.toNat ≠ 13)) = s.toList := by
    apply List.filter_eq_self.mpr
    intro ch hch
    simpa using h ch hch
  rw [this]
  cases s
  rfl

theorem value?_after_select (numToString : ℚ → String) (form : Form) (s : JsObject)
    (k : String) (v : Val) (hf : (form.value? k).isSome = true) (hv : s.get k = some v) :
    (populateFields numToString s s.keys form).value? k =
      some (stripNewlines (v.toDisplay numToString)) := by
  rw [value?_populateFields, if_pos ⟨mem_keys_of_get s k v hv, hf⟩]
  simp [shownValue, hv]

theorem get_of_mem_keys (o : JsObject) (k : String) (h : k ∈ o.keys) :
    ∃ v, o.get k = some v := by
  induction o with
  | nil => simp [JsObject.keys] at h
  | cons e rest ih =>
    obtain ⟨k', v'⟩ := e
    unfold JsObject.get
    by_cases hk : k' = k
    · exact ⟨v', by simp [hk]⟩
    · simp only [JsObject.keys, List.map_cons, List.mem_cons] at h
      rcases h with h | h
      · exact absurd h.symm hk
      · simpa [hk] using ih h

theorem selectThenPredict_known (numToString : ℚ → String) (rand : ℕ → ℚ) (fuel : ℕ)
    (app : App) (s r : JsObject) (c d : String) (q : ℚ)
    (huniq : (app.samplesData.map fun x => x.get "candidate_id").Nodup)
    (hfc : (app.form.value? "candidate_id").isSome = true)
    (hfd : (app.form.value? "disposition").isSome = true)
    (hs : s ∈ app.samplesData)
    (hc : s.get "candidate_id" = some (Val.str c))
    (hd : s.get "disposition" = some (Val.str d))
    (hr : findById app.synthesisData (stripNewlines c) = some r)
    (hq : r.get "final_score" = some (Val.num q))
    (hne : c ≠ "") (hne' : stripNewlines c ≠ "")
    (hmark : stripNewlines d ≠ manualEntryMarker) :
    selectThenPredict numToString rand (fuel + 1) c app =
      some (.ok
        { app with
          form := populateFields numToString s s.keys app.form
          results := expertItems numToString r ++
            [Node.prediction
              { cssClass := some
                  (if (if 1 / 2 < q then "PLANET" else "FALSE_POSITIVE") = stripNewlines d
                    then "correct" else "incorrect")
                groundTruthLine := some (stripNewlines d)
                finalPrediction := if 1 / 2 < q then "PLANET" else "FALSE_POSITIVE"
                score := (JsNum.finite q).toFixed numToString 4
                headline := some
                  (if (if 1 / 2 < q then "PLANET" else "FALSE_POSITIVE") = stripNewlines d
                    then "Result: Correct" else "Result: Incorrect") }] }) := by
  unfold selectThenPredict
  rw [handleSampleChange_known numToString app s c hne huniq hs hc]
  simp only
  have hit : LookupHit { app with form := populateFields numToString s s.keys app.form }
      (stripNewlines c) (stripNewlines d) r :=
    ⟨value?_after_select numToString app.form s "candidate_id" (Val.str c) hfc hc, hne',
      value?_after_select numToString app.form s "disposition" (Val.str d) hfd hd, hr⟩
  rw [handlePredict_hit numToString rand fuel _ _ _ r hit,
    displayResults_numeric numToString r _ q _ hq hmark]

/-! ## Lemmas on the shape of the form -/

theorem shape_setValueById (form form' : Form) (k v : String)
    (h : form.setValueById k v = some form') : form'.shape = form.shape := by
  induction form generalizing form' with
  | nil => simp [Form.setValueById] at h
  | cons f rest ih =>
    unfold Form.setValueById at h
    by_cases hk : f.name = k
    · simp only [hk, if_true, Option.some.injEq] at h
      subst h
      simp [Form.shape, hk]
    · simp only [hk, if_false, Option.map_eq_some'] at h
      obtain ⟨rest', hr, rfl⟩ := h
      have := ih rest' hr
      simp only [Form.shape, List.map_cons] at this ⊢
      rw [this]

theorem shape_populateFields (numToString : ℚ → String) (sample : JsObject)
    (keys : List String) (form : Form) :
    (populateFields numToString sample keys form).shape = form.shape := by
  induction keys generalizing form with
  | nil => rfl
  | cons k keys ih =>
    unfold populateFields
    cases hs : form.setValueById k (shownValue numToString sample k) with
    | none => exact ih form
    | some form' => exact (ih form').trans (shape_setValueById form form' k _ hs)

theorem shape_clearEditable (form : Form) : (clearEditable form).shape = form.shape := by
  simp only [Form.shape, clearEditable, List.map_map]
  apply List.map_congr_left
  intro f _
  cases hr : f.readOnly <;> simp [hr]

theorem shape_map_flagged (form : Form) :
    Form.shape (form.map Field.flagged) = form.shape := by
  simp only [Form.shape, List.map_map]
  rfl

theorem shape_handleSampleChange (numToString : ℚ → String) (selectedId : String) (app : App) :
    (outcomeState (handleSampleChange numToString selectedId app)).form.shape =
      app.form.shape := by
  unfold handleSampleChange
  by_cases hid : selectedId = ""
  · simp only [hid, if_true]
    cases h1 : (clearEditable app.form).setValueById "candidate_id" "" with
    | none => exact shape_clearEditable app.form
    | some form2 =>
      have s2 := (shape_setValueById _ form2 _ _ h1).trans (shape_clearEditable app.form)
      simp only
      cases h2 : form2.setValueById "disposition" "" with
      | none => exact s2
      | some form3 => exact (shape_setValueById _ form3 _ _ h2).trans s2
  · simp only [hid, if_false]
    cases findById app.samplesData selectedId with
    | none => rfl
    | some sample => exact shape_populateFields numToString sample sample.keys app.form

theorem form_displayResults (numToString : ℚ → String) (r : JsObject) (g : String) (app : App) :
    (outcomeState (displayResults numToString r g app)).form = app.form ∧
      (outcomeState (displayResults numToString r g app)).samplesData = app.samplesData ∧
      (outcomeState (displayResults numToString r g app)).synthesisData =
        app.synthesisData := by
  unfold displayResults
  cases r.get "final_score" with
  | none => exact ⟨rfl, rfl, rfl⟩
  | some v =>
    cases v with
    | str s => exact ⟨rfl, rfl, rfl⟩
    | num q => exact ⟨rfl, rfl, rfl⟩

theorem shape_manualPredict (numToString : ℚ → String) (rand : ℕ → ℚ) (app : App) :
    (outcomeState (manualPredict numToString rand app)).form.shape = app.form.shape := by
  unfold manualPredict
  have hv : (validateInputs app).1.form.shape = app.form.shape := by
    rw [validateInputs_form]; exact shape_map_flagged app.form
  simp only
  cases hval : (validateInputs app).2 with
  | false => exact hv
  | true =>
    simp only [Bool.true_eq_false, if_false]
    rw [(form_displayResults numToString _ _ _).1]
    exact hv

theorem shape_handlePredict (numToString : ℚ → String) (rand : ℕ → ℚ) (fuel : ℕ) :
    ∀ (app : App) (out : Except App App), handlePredict numToString rand fuel app = some out →
      (outcomeState out).form.shape = app.form.shape := by
  induction fuel with
  | zero => intro app out h; exact Option.noConfusion h
  | succ n ih =>
    intro app out h
    unfold handlePredict at h
    cases hq : app.form.getElementById "candidate_id" with
    | none =>
      simp only [hq, Option.some.injEq] at h
      subst h
      exact shape_manualPredict numToString rand app
    | some f =>
      simp only [hq] at h
      by_cases hv : f.value = ""
      · simp only [hv, if_true, Option.some.injEq] at h
        subst h
        exact shape_manualPredict numToString rand app
      · simp only [hv, if_false] at h
        cases hd : app.form.getElementById "disposition" with
        | none =>
          simp only [hd, Option.some.injEq] at h
          subst h
          rfl
        | some d =>
          simp only [hd] at h
          cases hr : findById app.synthesisData f.value with
          | some r =>
            simp only [hr, Option.some.injEq] at h
            subst h
            rw [(form_displayResults numToString _ _ _).1]
          | none =>
            simp only [hr] at h
            have hvs : (validateInputs app).1.form.shape = app.form.shape := by
              rw [validateInputs_form]; exact shape_map_flagged app.form
            cases hval : (validateInputs app).2 with
            | false =>
              simp only [hval, if_true, Option.some.injEq] at h
              subst h
              exact hvs
            | true =>
              simp only [hval, Bool.true_eq_false, if_false] at h
              exact (ih _ out h).trans hvs

theorem names_setValueById_map (form : Form) (k v : String) :
    (form.map fun f => if f.name = k then { f with value := v } else f).map Field.name =
      form.map Field.name := by
  rw [List.map_map]
  apply List.map_congr_left
  intro f _
  by_cases h : f.name = k <;> simp [h]

theorem populateFields_eq_map (numToString : ℚ → String) (sample : JsObject)
    (keys : List String) (form : Form) (hnd : (form.map Field.name).Nodup) :
    populateFields numToString sample keys form =
      form.map fun f =>
        if f.name ∈ keys then { f with value := shownValue numToString sample f.name } else f := by
  induction keys generalizing form with
  | nil => simp [populateFields]
  | cons k keys ih =>
    unfold populateFields
    by_cases hk : k ∈ form.map Field.name
    · rw [setValueById_eq_map form k _ hnd hk]
      simp only
      rw [ih _ (by rw [names_setValueById_map]; exact hnd), List.map_map]
      apply List.map_congr_left
      intro f _
      by_cases h1 : f.name = k
      · by_cases h2 : k ∈ keys <;> simp [h1, h2]
      · by_cases h2 : f.name ∈ keys <;> simp [h1, h2]
    · have hnone : form.setValueById k (shownValue numToString sample k) = none := by
        rw [setValueById_none]
        cases hv : form.value? k with
        | none => rfl
        | some x =>
          exfalso
          apply hk
          unfold Form.value? Form.getElementById at hv
          cases hf : form.find? (fun f => decide (f.name = k)) with
          | none => simp [hf] at hv
          | some g =>
            have hm := List.mem_of_find?_eq_some hf
            have hp := List.find?_some hf
            simp only [decide_eq_true_eq] at hp
            exact hp ▸ List.mem_map_of_mem Field.name hm
      rw [hnone]
      simp only
      rw [ih form hnd]
      apply List.map_congr_left
      intro f hf
      have h1 : f.name ≠ k := fun e => hk (e ▸ List.mem_map_of_mem Field.name hf)
      by_cases h2 : f.name ∈ keys <;> simp [h1, h2]

/-! ## Lemmas on the rendered report -/

theorem displayResults_of_score (numToString : ℚ → String) (r : JsObject) (g : String)
    (q : ℚ) (app : App) (hq : r.get "final_score" = some (Val.num q)) :
    displayResults numToString r g app =
      .ok { app with
        results :=
          (if g = manualEntryMarker then [Node.notice "Prediction based on manual input."]
            else []) ++ expertItems numToString r ++
          [Node.prediction
            (if g ≠ manualEntryMarker then
              { cssClass := some
                  (if (if 1 / 2 < q then "PLANET" else "FALSE_POSITIVE") = g then "correct"
                    else "incorrect")
                groundTruthLine := some g
                finalPrediction := if 1 / 2 < q then "PLANET" else "FALSE_POSITIVE"
                score := (JsNum.finite q).toFixed numToString 4
                headline := some
                  (if (if 1 / 2 < q then "PLANET" else "FALSE_POSITIVE") = g
                    then "Result: Correct" else "Result: Incorrect") }
            else
              { cssClass := none, groundTruthLine := none,
                finalPrediction := if 1 / 2 < q then "PLANET" else "FALSE_POSITIVE",
                score := (JsNum.finite q).toFixed numToString 4, headline := none })] } := by
  unfold displayResults
  simp only [hq, Val.toNumber, JsNum.gt, decide_eq_true_eq]

theorem expertItems_eq (numToString : ℚ → String) (r : JsObject) :
    expertItems numToString r =
      (r.keys.filter isExpertKey).map fun key =>
        Node.resultItem (expertName key) (probaText numToString r key) := by
  unfold expertItems probaText
  induction r.keys with
  | nil => rfl
  | cons k ks ih =>
    by_cases hk : isExpertKey k = true
    · rw [List.filter_cons_of_pos hk, List.map_cons, ← ih]
      simp [List.filterMap_cons, hk]
    · rw [List.filter_cons_of_neg hk, ← ih]
      simp [List.filterMap_cons, hk]

theorem expertLines_append (a b : List Node) :
    expertLines (a ++ b) = expertLines a ++ expertLines b := by
  simp [expertLines, List.filterMap_append]

theorem expertLines_expertItems (numToString : ℚ → String) (r : JsObject) :
    expertLines (expertItems numToString r) =
      (r.keys.filter isExpertKey).map fun key =>
        (expertName key, probaText numToString r key) := by
  rw [expertItems_eq]
  unfold expertLines
  induction r.keys.filter isExpertKey with
  | nil => rfl
  | cons k ks ih => simp only [List.map_cons, List.filterMap_cons, ih]

theorem expertLines_displayResults (numToString : ℚ → String) (r : JsObject) (g : String)
    (app : App) :
    expertLines (outcomeState (displayResults numToString r g app)).results =
      (r.keys.filter isExpertKey).map fun key =>
        (expertName key, probaText numToString r key) := by
  have hhead : expertLines (if g = manualEntryMarker then
      [Node.notice "Prediction based on manual input."] else []) = [] := by
    by_cases hg : g = manualEntryMarker <;> simp [hg, expertLines]
  unfold displayResults
  cases r.get "final_score" with
  | none =>
    simp only [outcomeState, expertLines_append, hhead, List.nil_append,
      expertLines_expertItems]
  | some v =>
    cases v with
    | str s =>
      simp only [outcomeState, expertLines_append, hhead, List.nil_append,
        expertLines_expertItems]
    | num q =>
      simp only [outcomeState, expertLines_append, hhead, List.nil_append,
        expertLines_expertItems]
      simp [expertLines]

theorem predictionBlock?_report (numToString : ℚ → String) (r : JsObject) (g : String)
    (block : PredictionDiv) :
    predictionBlock? ((if g = manualEntryMarker then
        [Node.notice "Prediction based on manual input."] else []) ++
      expertItems numToString r ++ [Node.prediction block]) = some block := by
  have : predictionBlock? (expertItems numToString r ++ [Node.prediction block]) =
      some block := by
    rw [predictionBlock?_expertItems]; rfl
  by_cases hg : g = manualEntryMarker
  · simp only [hg, if_true, List.append_assoc, List.singleton_append]
    simpa [predictionBlock?, List.findSome?_cons] using this
  · simp only [hg, if_false, List.nil_append]
    exact this

theorem displayResults_frame (numToString : ℚ → String) (r : JsObject) (g : String)
    (app app' : App) :
    (∃ res, displayResults numToString r g app = .ok { app with results := res } ∧
        displayResults numToString r g app' = .ok { app' with results := res }) ∨
      (∃ res, displayResults numToString r g app = .error { app with results := res } ∧
        displayResults numToString r g app' = .error { app' with results := res }) := by
  unfold displayResults
  cases r.get "final_score" with
  | none => exact Or.inr ⟨_, rfl, rfl⟩
  | some v =>
    cases v with
    | str s => exact Or.inr ⟨_, rfl, rfl⟩
    | num q => exact Or.inl ⟨_, rfl, rfl⟩

/-! ## Lemmas on expert keys and names -/

theorem isExpertKey_iff_glob (key : String) :
    isExpertKey key = true ↔ MatchesExpertGlob key ∨ key = "expert_proba" := by
  unfold isExpertKey MatchesExpertGlob
  simp only [Bool.and_eq_true, List.isPrefixOf_iff_prefix, List.isSuffixOf_iff_suffix]
  constructor
  · rintro ⟨⟨t, ht⟩, hs⟩
    by_cases hl : 6 ≤ t.length
    · left
      have ht' : t <:+ key.toList := ⟨_, ht⟩
      obtain ⟨mid, hmid⟩ := List.suffix_of_suffix_length_le hs ht' (by simpa using hl)
      exact ⟨mid, by rw [← ht, ← hmid, List.append_assoc]⟩
    · right
      rw [← ht, List.suffix_iff_eq_drop] at hs
      have hkey : key = String.mk ("expert_".toList ++ t) := by
        apply String.ext
        exact ht.symm
      rw [hkey]
      match t, hl, hs with
      | [], _, hs => simp at hs
      | [a], _, hs => simp at hs
      | [a, b], _, hs => simp at hs
      | [a, b, c], _, hs => simp at hs
      | [a, b, c, d], _, hs => simp at hs
      | [a, b, c, d, e], _, hs =>
        simp at hs
        obtain ⟨rfl, rfl, rfl, rfl, rfl⟩ := hs
        rfl
      | _ :: _ :: _ :: _ :: _ :: _ :: _, hl, _ => simp at hl
  · rintro (⟨mid, hmid⟩ | rfl)
    · exact ⟨⟨mid ++ "_proba".toList, by rw [hmid, List.append_assoc]⟩, ⟨_, hmid.symm⟩⟩
    · exact ⟨⟨"proba".toList, rfl⟩, ⟨"expert".toList, rfl⟩⟩

theorem digit_ne_underscore (c : Char) (h : c.isDigit = true) : c ≠ '_' ∧ c ≠ 'p' := by
  constructor <;> (rintro rfl; revert h; decide)

theorem removeFirst_skip (c : Char) (cs : List Char) (h : c ≠ '_') :
    removeFirst "_proba".toList (c :: cs) = c :: removeFirst "_proba".toList cs := by
  have : ¬ ('_' = c) := fun e => h e.symm
  simp [removeFirst, List.isPrefixOf, this]

theorem removeFirst_digits (ds : List Char) (hd : ∀ c ∈ ds, c.isDigit = true) :
    removeFirst "_proba".toList (ds ++ "_proba".toList) = ds := by
  induction ds with
  | nil => decide
  | cons d ds ih =>
    rw [List.cons_append, removeFirst_skip d _ (digit_ne_underscore d (hd d (by simp))).1,
      ih (fun c hc => hd c (by simp [hc]))]

theorem removeFirst_expert_digits (ds : List Char) (hd : ∀ c ∈ ds, c.isDigit = true) :
    removeFirst "_proba".toList ("expert_".toList ++ ds ++ "_proba".toList) =
      "expert_".toList ++ ds := by
  have hstep : removeFirst "_proba".toList ('_' :: (ds ++ "_proba".toList)) =
      '_' :: removeFirst "_proba".toList (ds ++ "_proba".toList) := by
    cases ds with
    | nil => decide
    | cons d ds =>
      have hp : ¬ ('p' = d) := fun e => (digit_ne_underscore d (hd d (by simp))).2 e.symm
      simp [removeFirst, List.isPrefixOf, hp]
  show removeFirst "_proba".toList
      ('e' :: 'x' :: 'p' :: 'e' :: 'r' :: 't' :: '_' :: ([] ++ ds) ++ "_proba".toList) = _
  simp only [List.nil_append, List.cons_append]
  rw [removeFirst_skip _ _ (by decide), removeFirst_skip _ _ (by decide),
    removeFirst_skip _ _ (by decide), removeFirst_skip _ _ (by decide),
    removeFirst_skip _ _ (by decide), removeFirst_skip _ _ (by decide), hstep,
    removeFirst_digits ds hd]
  rfl

theorem expertName_digits (ds : List Char) (hd : ∀ c ∈ ds, c.isDigit = true) :
    expertName (String.mk ("expert_".toList ++ ds ++ "_proba".toList)) =
        String.mk ("expert ".toList ++ ds) ∧
      suffixStrippedName (String.mk ("expert_".toList ++ ds ++ "_proba".toList)) =
        String.mk ("expert ".toList ++ ds) := by
  have hmap : ds.map (fun c => if c = '_' then ' ' else c) = ds := by
    conv_rhs => rw [← List.map_id ds]
    apply List.map_congr_left
    intro c hc
    simp [(digit_ne_underscore c (hd c hc)).1]
  constructor
  · unfold expertName
    rw [show (String.mk ("expert_".toList ++ ds ++ "_proba".toList)).toList =
      "expert_".toList ++ ds ++ "_proba".toList from rfl, removeFirst_expert_digits ds hd,
      List.map_append, hmap]
    rfl
  · unfold suffixStrippedName
    rw [show (String.mk ("expert_".toList ++ ds ++ "_proba".toList)).toList =
      "expert_".toList ++ ds ++ "_proba".toList from rfl]
    have hlen : ("expert_".toList ++ ds ++ "_proba".toList).length - 6 =
        ("expert_".toList ++ ds).length := by
      simp
    rw [hlen, List.take_left', List.map_append, hmap]
    · rfl
    · rfl

theorem synthesize_score (rand : ℕ → ℚ) :
    (synthesize rand).get "final_score" = some (Val.num (manualScore rand)) := by
  rw [synthesize_eq]; rfl

theorem lookupHit_frame (app app' : App) (c g : String) (r : JsObject)
    (h : LookupHit app c g r) (hf : app'.form = app.form)
    (hs : app'.synthesisData = app.synthesisData) : LookupHit app' c g r := by
  unfold LookupHit at h ⊢
  rw [hf, hs]
  exact h

/-! # The claims -/

/-- C1 (the code fails the claim): selecting `UNKNOWN99`, which has no synthesis record,
fills the form with valid values; the predict that follows does not fall back to a manual
prediction: at every stack depth the call is still re-entering itself and has rendered
nothing. -/
theorem lookupMiss_fallback_never_returns (numToString : ℚ → String) (rand : ℕ → ℚ) :
    handleSampleChange numToString "UNKNOWN99" appUnknown99 =
        .ok { appUnknown99 with form := formK001 "UNKNOWN99" "PLANET" "1.5" } ∧
      ∀ fuel, handlePredict numToString rand fuel
        { appUnknown99 with form := formK001 "UNKNOWN99" "PLANET" "1.5" } = none :=
  ⟨by rfl, fun fuel => handlePredict_miss_valid numToString rand fuel _ "UNKNOWN99"
    ⟨by decide, by decide, by decide, by decide⟩ (by decide)⟩

/-- C2 (the code fails the claim): `handlePredict` returns, at some stack depth, exactly when
the state is not a lookup miss with valid inputs; on a lookup miss with valid inputs the
re-entry of the third branch repeats without end. -/
theorem handlePredict_returns_iff (numToString : ℚ → String) (rand : ℕ → ℚ) (app : App) :
    (∃ fuel out, handlePredict numToString rand fuel app = some out) ↔
      ¬ ∃ c, LookupMiss app c ∧ (validateInputs app).2 = true := by
  constructor
  · rintro ⟨fuel, out, hout⟩ ⟨c, hm, hv⟩
    rw [handlePredict_miss_valid numToString rand fuel app c hm hv] at hout
    exact Option.noConfusion hout
  · intro hno
    refine ⟨1, ?_⟩
    cases hc : app.form.value? "candidate_id" with
    | none => exact ⟨_, handlePredict_manual numToString rand 0 app (Or.inl hc)⟩
    | some c =>
      by_cases hne : c = ""
      · exact ⟨_, handlePredict_manual numToString rand 0 app (Or.inr (hne ▸ hc))⟩
      · cases hg : app.form.value? "disposition" with
        | none =>
          refine ⟨.error app, ?_⟩
          unfold Form.value? at hc hg
          unfold handlePredict
          cases hq : app.form.getElementById "candidate_id" with
          | none => simp [hq] at hc
          | some f =>
            have hv : f.value = c := by simpa [hq] using hc
            cases hd : app.form.getElementById "disposition" with
            | none => simp [hv, hne]
            | some d => simp [hd] at hg
        | some g =>
          cases hr : findById app.synthesisData c with
          | some r =>
            exact ⟨_, handlePredict_hit numToString rand 0 app c g r ⟨hc, hne, hg, hr⟩⟩
          | none =>
            have hm : LookupMiss app c := ⟨hc, hne, by simp [hg], hr⟩
            have hv : (validateInputs app).2 = false := by
              cases h : (validateInputs app).2 with
              | false => rfl
              | true => exact absurd ⟨c, hm, h⟩ hno
            refine ⟨.ok (validateInputs app).1, ?_⟩
            rw [handlePredict_miss numToString rand 0 app c hm, hv]
            rfl


/-- C3: for draws in `[0, 1)` the synthesised result has the keys `expert_01_proba` to
`expert_09_proba` followed by `final_score`; expert `i` is `0.35 * r_i`, in `[0, 0.35)`;
`final_score` is `max(0, mean + (r_10 - 0.5) * 0.1)` with the noise in `[-0.05, 0.05)`, and
is not negative. -/
theorem synthesize_bounds (rand : ℕ → ℚ) (h : UnitDraws rand) :
    (synthesize rand).keys =
        ["expert_01_proba", "expert_02_proba", "expert_03_proba", "expert_04_proba",
         "expert_05_proba", "expert_06_proba", "expert_07_proba", "expert_08_proba",
         "expert_09_proba", "final_score"] ∧
      (∀ i, 1 ≤ i → i ≤ 9 →
        (synthesize rand).get (expertKey i) = some (Val.num (35 / 100 * rand i)) ∧
          0 ≤ 35 / 100 * rand i ∧ 35 / 100 * rand i < 35 / 100) ∧
      (synthesize rand).get "final_score" =
        some (Val.num (max 0 (((List.range' 1 9).map fun i => 35 / 100 * rand i).sum / 9
          + (rand 10 - 1 / 2) * (1 / 10)))) ∧
      (-(5 / 100) ≤ (rand 10 - 1 / 2) * (1 / 10) ∧ (rand 10 - 1 / 2) * (1 / 10) < 5 / 100) ∧
      0 ≤ max 0 (((List.range' 1 9).map fun i => 35 / 100 * rand i).sum / 9
          + (rand 10 - 1 / 2) * (1 / 10)) := by
  refine ⟨?_, ?_, ?_, ?_, le_max_left _ _⟩
  · rw [synthesize_eq]; rfl
  · intro i h1 h9
    have hi := h i h1 (by omega)
    refine ⟨?_, by linarith [hi.1], by linarith [hi.2]⟩
    rw [synthesize_eq]
    interval_cases i <;> rfl
  · rw [synthesize_eq]; rfl
  · have h10 := h 10 (by norm_num) (by norm_num)
    constructor <;> linarith [h10.1, h10.2]

/-- C3, at the draws that are all `0.5`. -/
theorem synthesize_bounds_witness :
    (synthesize halfDraws).keys =
        ["expert_01_proba", "expert_02_proba", "expert_03_proba", "expert_04_proba",
         "expert_05_proba", "expert_06_proba", "expert_07_proba", "expert_08_proba",
         "expert_09_proba", "final_score"] ∧
      (∀ i, 1 ≤ i → i ≤ 9 →
        (synthesize halfDraws).get (expertKey i) = some (Val.num (35 / 100 * halfDraws i)) ∧
          0 ≤ 35 / 100 * halfDraws i ∧ 35 / 100 * halfDraws i < 35 / 100) ∧
      (synthesize halfDraws).get "final_score" =
        some (Val.num (max 0 (((List.range' 1 9).map fun i => 35 / 100 * halfDraws i).sum / 9
          + (halfDraws 10 - 1 / 2) * (1 / 10)))) ∧
      (-(5 / 100) ≤ (halfDraws 10 - 1 / 2) * (1 / 10) ∧
        (halfDraws 10 - 1 / 2) * (1 / 10) < 5 / 100) ∧
      0 ≤ max 0 (((List.range' 1 9).map fun i => 35 / 100 * halfDraws i).sum / 9
          + (halfDraws 10 - 1 / 2) * (1 / 10)) :=
  synthesize_bounds halfDraws halfDraws_unit

/-- C4: for draws in `[0, 1)` the synthesised `final_score` is below `0.4`, and every predict
in manual mode whose inputs pass validation ends with a report whose final prediction is
`FALSE_POSITIVE`. -/
theorem manual_prediction_is_false_positive (numToString : ℚ → String) (rand : ℕ → ℚ)
    (fuel : ℕ) (app : App) (h : UnitDraws rand) (hm : ManualMode app)
    (hv : (validateInputs app).2 = true) :
    ∃ q : ℚ, (synthesize rand).get "final_score" = some (Val.num q) ∧ q < 4 / 10 ∧
      ¬ (q > 5 / 10) ∧
      handlePredict numToString rand (fuel + 1) app =
        some (.ok { (validateInputs app).1 with
          results :=
            Node.notice "Prediction based on manual input." ::
              (expertItems numToString (synthesize rand) ++
                [Node.prediction
                  { cssClass := none, groundTruthLine := none,
                    finalPrediction := "FALSE_POSITIVE",
                    score := (JsNum.finite q).toFixed numToString 4, headline := none }]) }) := by
  have hlt := manualScore_lt rand h
  refine ⟨manualScore rand, by rw [synthesize_eq]; rfl, hlt, by intro h'; linarith, ?_⟩
  rw [handlePredict_manual numToString rand fuel app hm]
  simp only [manualPredict, hv, Bool.true_eq_false, if_false]
  rw [displayResults_manual numToString rand h]

/-- C4, at the empty `candidate_id` with feature value `"42"` and draws all `0.5`. -/
theorem manual_prediction_is_false_positive_witness :
    ∃ q : ℚ, (synthesize halfDraws).get "final_score" = some (Val.num q) ∧ q < 4 / 10 ∧
      ¬ (q > 5 / 10) ∧
      handlePredict (fun _ => "") halfDraws 1 (appK001 "" "" "42") =
        some (.ok { (validateInputs (appK001 "" "" "42")).1 with
          results :=
            Node.notice "Prediction based on manual input." ::
              (expertItems (fun _ => "") (synthesize halfDraws) ++
                [Node.prediction
                  { cssClass := none, groundTruthLine := none,
                    finalPrediction := "FALSE_POSITIVE",
                    score := (JsNum.finite q).toFixed (fun _ => "") 4, headline := none }]) }) :=
  manual_prediction_is_false_positive (fun _ => "") halfDraws 0 (appK001 "" "" "42")
    halfDraws_unit (Or.inr (by decide)) (by decide)


/-- C5: `validateInputs` sets the error flag of each field by the specification's rule (not
read-only, and trimmed value empty or name not numeric-exempt and value not a number), and
returns `false` exactly when some field is flagged; `"abc"` is flagged in a field that is
neither read-only nor exempt, `"42"` and `"3.14"` are not flagged. -/
theorem validateInputs_characterisation (app : App) :
    (validateInputs app).1.form =
        app.form.map (fun f => { f with error := fieldInvalid f }) ∧
      (∀ f : Field, fieldInvalid f = true ↔
        f.readOnly = false ∧ (jsTrim f.value.toList = [] ∨
          (f.name ∉ ["dataset", "disposition", "tess_disp"] ∧
            (stringToNumber f.value).isNaN = true))) ∧
      ((validateInputs app).2 = false ↔ ∃ f ∈ (validateInputs app).1.form, f.error = true) ∧
      (∀ (name : String) (readOnly error : Bool),
        fieldInvalid ⟨name, readOnly, "abc", error⟩ =
          (!readOnly && decide (name ∉ ["dataset", "disposition", "tess_disp"]))) ∧
      (∀ (name : String) (readOnly error : Bool),
        fieldInvalid ⟨name, readOnly, "42", error⟩ = false ∧
          fieldInvalid ⟨name, readOnly, "3.14", error⟩ = false) := by
  refine ⟨validateInputs_form app, ?_, ?_, ?_, ?_⟩
  · intro f
    simp [fieldInvalid, numericExempt]
  · rw [validateInputs_valid, validateInputs_form]
    simp [Field.flagged]
  · intro name readOnly error
    have h1 : jsTrim "abc".toList ≠ [] := by decide
    have h2 : (stringToNumber "abc").isNaN = true := by decide
    simp only [fieldInvalid, numericExempt, h1, h2, decide_False, Bool.false_or, Bool.and_true]
  · intro name readOnly error
    have h1 : jsTrim "42".toList ≠ [] := by decide
    have h2 : (stringToNumber "42").isNaN = false := by decide
    have h3 : jsTrim "3.14".toList ≠ [] := by decide
    have h4 : (stringToNumber "3.14").isNaN = false := by decide
    simp only [fieldInvalid, h1, h2, h3, h4, decide_False, Bool.false_or, Bool.and_false,
      and_self]

/-- C6: in manual mode, or on a lookup miss, when `validateInputs` returns `false` the predict
returns with the validation message as the only content of the results area; the fields carry
the validator's error flags and their names, read-only flags and values are those before. -/
theorem validation_failure_aborts (numToString : ℚ → String) (rand : ℕ → ℚ) (fuel : ℕ)
    (app : App) (hmode : ManualMode app ∨ ∃ c, LookupMiss app c)
    (hv : (validateInputs app).2 = false) :
    handlePredict numToString rand (fuel + 1) app =
        some (.ok { app with
          form := app.form.map (fun f => { f with error := fieldInvalid f })
          results := [Node.errorBox
            "Please fill all fields correctly. Non-numeric values are not allowed in number fields."] }) ∧
      (app.form.map fun f => { f with error := fieldInvalid f }).map
          (fun f => (f.name, f.readOnly, f.value)) =
        app.form.map (fun f => (f.name, f.readOnly, f.value)) := by
  have hst : (validateInputs app).1 = { app with
      form := app.form.map (fun f => { f with error := fieldInvalid f })
      results := [Node.errorBox
        "Please fill all fields correctly. Non-numeric values are not allowed in number fields."] } := by
    have h1 := validateInputs_form app
    have h2 := validateInputs_results app
    have h3 := validateInputs_data app
    rw [hv] at h2
    cases hx : (validateInputs app).1 with
    | mk s y f r =>
      rw [hx] at h1 h2 h3
      simp only at h1 h2 h3
      simp only [App.mk.injEq]
      exact ⟨h3.1, h3.2, h1, h2⟩
  refine ⟨?_, by simp [List.map_map, Function.comp_def]⟩
  rcases hmode with hm | ⟨c, hm⟩
  · rw [handlePredict_manual numToString rand fuel app hm]
    simp only [manualPredict, hv, if_true]
    rw [hst]
  · rw [handlePredict_miss numToString rand fuel app c hm]
    simp only [hv, if_true]
    rw [hst]

/-- C6, at the specification's scenario: empty `candidate_id`, feature value `"abc"`. -/
theorem validation_failure_aborts_witness :
    handlePredict (fun _ => "") halfDraws 1 (appK001 "" "" "abc") =
        some (.ok { appK001 "" "" "abc" with
          form := (appK001 "" "" "abc").form.map (fun f => { f with error := fieldInvalid f })
          results := [Node.errorBox
            "Please fill all fields correctly. Non-numeric values are not allowed in number fields."] }) ∧
      ((appK001 "" "" "abc").form.map fun f => { f with error := fieldInvalid f }).map
          (fun f => (f.name, f.readOnly, f.value)) =
        (appK001 "" "" "abc").form.map (fun f => (f.name, f.readOnly, f.value)) :=
  validation_failure_aborts (fun _ => "") halfDraws 0 (appK001 "" "" "abc")
    (Or.inl (Or.inr (by decide))) (by decide)

/-- C7: with a non-empty `candidate_id` value `c`, a `disposition` value `g` and `r` the first
synthesis record of id `c`, the predict is `displayResults(r, g)` on the unchanged state; `r` is
a member of the synthesis collection, and the collection, the samples and the form are the same
afterwards; when `final_score` of `r` is a number the call returns normally. -/
theorem lookup_returns_fixture (numToString : ℚ → String) (rand : ℕ → ℚ) (fuel : ℕ)
    (app : App) (c g : String) (r : JsObject) (h : LookupHit app c g r) :
    handlePredict numToString rand (fuel + 1) app = some (displayResults numToString r g app) ∧
      r ∈ app.synthesisData ∧ r.get "candidate_id" = some (Val.str c) ∧
      (outcomeState (displayResults numToString r g app)).synthesisData = app.synthesisData ∧
      (outcomeState (displayResults numToString r g app)).samplesData = app.samplesData ∧
      (outcomeState (displayResults numToString r g app)).form = app.form ∧
      (∀ q, r.get "final_score" = some (Val.num q) →
        ∃ results, handlePredict numToString rand (fuel + 1) app =
          some (.ok { app with results := results })) := by
  refine ⟨handlePredict_hit numToString rand fuel app c g r h, ?_, ?_, ?_⟩
  · exact List.mem_of_find?_eq_some h.2.2.2
  · have := List.find?_some h.2.2.2
    simpa using this
  · unfold displayResults
    cases hfs : r.get "final_score" with
    | none => exact ⟨rfl, rfl, rfl, fun q hq => Option.noConfusion hq⟩
    | some v =>
      cases v with
      | str s => exact ⟨rfl, rfl, rfl, fun q hq => by simp at hq⟩
      | num q =>
        refine ⟨rfl, rfl, rfl, fun q' _ => ?_⟩
        rw [handlePredict_hit numToString rand fuel app c g r h]
        unfold displayResults
        simp only [hfs]
        exact ⟨_, rfl⟩

/-- C7, at `K001` selected with disposition `PLANET`. -/
theorem lookup_returns_fixture_witness :
    handlePredict (fun _ => "") halfDraws 1 (appK001 "K001" "PLANET" "1") =
        some (displayResults (fun _ => "") recordK001 "PLANET" (appK001 "K001" "PLANET" "1")) ∧
      recordK001 ∈ (appK001 "K001" "PLANET" "1").synthesisData ∧
      recordK001.get "candidate_id" = some (Val.str "K001") ∧
      (outcomeState (displayResults (fun _ => "") recordK001 "PLANET"
        (appK001 "K001" "PLANET" "1"))).synthesisData =
          (appK001 "K001" "PLANET" "1").synthesisData ∧
      (outcomeState (displayResults (fun _ => "") recordK001 "PLANET"
        (appK001 "K001" "PLANET" "1"))).samplesData =
          (appK001 "K001" "PLANET" "1").samplesData ∧
      (outcomeState (displayResults (fun _ => "") recordK001 "PLANET"
        (appK001 "K001" "PLANET" "1"))).form = (appK001 "K001" "PLANET" "1").form ∧
      (∀ q, recordK001.get "final_score" = some (Val.num q) →
        ∃ results, handlePredict (fun _ => "") halfDraws 1 (appK001 "K001" "PLANET" "1") =
          some (.ok { appK001 "K001" "PLANET" "1" with results := results })) :=
  lookup_returns_fixture (fun _ => "") halfDraws 0 (appK001 "K001" "PLANET" "1") "K001" "PLANET"
    recordK001 ⟨by decide, by decide, by decide, by rfl⟩

/-- C8 (as stated, refuted): the end-to-end claim fails for a sample with a non-empty
`candidate_id` that holds a line break (the text input stores `K001` for `K\n001`, the record
is not found, and the predict re-enters itself without end), and it fails for a sample without
line breaks whose `candidate_id` is the empty string (the selection clears the form and the
predict is a manual one, reading `FALSE_POSITIVE` where the record has `0.82`). -/
theorem select_then_predict_counterexample :
    (¬ ∀ (numToString : ℚ → String) (rand : ℕ → ℚ) (app : App) (s r : JsObject)
        (c d : String) (q : ℚ),
      UnitDraws rand →
      (app.samplesData.map fun x => x.get "candidate_id").Nodup →
      (∃ first, app.samplesData.head? = some first ∧ "candidate_id" ∈ first.keys ∧
        "disposition" ∈ first.keys ∧ app.form.shape = (createEmptyForm first).shape) →
      s ∈ app.samplesData →
      s.get "candidate_id" = some (Val.str c) →
      s.get "disposition" = some (Val.str d) →
      (d = "PLANET" ∨ d = "FALSE_POSITIVE") →
      findById app.synthesisData c = some r →
      r.get "final_score" = some (Val.num q) →
      c ≠ "" →
      ∃ fuel app' block, selectThenPredict numToString rand fuel c app = some (.ok app') ∧
        predictionBlock? app'.results = some block ∧
        block.finalPrediction = (if q > 1 / 2 then "PLANET" else "FALSE_POSITIVE") ∧
        (block.cssClass = some "correct" ↔ block.finalPrediction = d) ∧
        (block.cssClass = some "incorrect" ↔ block.finalPrediction ≠ d)) ∧
    (¬ ∀ (numToString : ℚ → String) (rand : ℕ → ℚ) (app : App) (s r : JsObject)
        (c d : String) (q : ℚ),
      UnitDraws rand →
      (app.samplesData.map fun x => x.get "candidate_id").Nodup →
      (∃ first, app.samplesData.head? = some first ∧ "candidate_id" ∈ first.keys ∧
        "disposition" ∈ first.keys ∧ app.form.shape = (createEmptyForm first).shape) →
      s ∈ app.samplesData →
      s.get "candidate_id" = some (Val.str c) →
      s.get "disposition" = some (Val.str d) →
      (d = "PLANET" ∨ d = "FALSE_POSITIVE") →
      findById app.synthesisData c = some r →
      r.get "final_score" = some (Val.num q) →
      stripNewlines c = c →
      ∃ fuel app' block, selectThenPredict numToString rand fuel c app = some (.ok app') ∧
        predictionBlock? app'.results = some block ∧
        block.finalPrediction = (if q > 1 / 2 then "PLANET" else "FALSE_POSITIVE") ∧
        (block.cssClass = some "correct" ↔ block.finalPrediction = d) ∧
        (block.cssClass = some "incorrect" ↔ block.finalPrediction ≠ d)) := by
  constructor
  · intro h
    obtain ⟨fuel, app', block, hrun, _⟩ :=
      h (fun _ => "") halfDraws appLineBreakId sampleLineBreakId recordLineBreakId "K\n001"
        "PLANET" (82 / 100) halfDraws_unit (by decide)
        ⟨sampleLineBreakId, rfl, by decide, by decide, rfl⟩ (by decide) (by decide) (by decide)
        (Or.inl rfl) (by rfl) (by rfl) (by decide)
    have hsel : handleSampleChange (fun _ => "") "K\n001" appLineBreakId =
        .ok { appLineBreakId with
          form := [⟨"candidate_id", true, "K001", false⟩,
            ⟨"disposition", true, "PLANET", false⟩] } := by
      rfl
    unfold selectThenPredict at hrun
    rw [hsel] at hrun
    simp only at hrun
    rw [handlePredict_miss_valid (fun _ => "") halfDraws fuel _ "K001"
      ⟨by decide, by decide, by decide, by decide⟩ (by decide)] at hrun
    exact Option.noConfusion hrun
  · intro h
    obtain ⟨fuel, app', block, hrun, hblock, hpred, _, _⟩ :=
      h (fun _ => "") halfDraws appEmptyId sampleEmptyId recordEmptyId "" "PLANET" (82 / 100)
        halfDraws_unit (by decide) ⟨sampleEmptyId, rfl, by decide, by decide, rfl⟩ (by decide)
        (by decide) (by decide) (Or.inl rfl) (by rfl) (by rfl) (by decide)
    have hsel : handleSampleChange (fun _ => "") "" appEmptyId =
        .ok { appEmptyId with
          form := [⟨"candidate_id", true, "", false⟩, ⟨"disposition", true, "", false⟩] } := by
      rfl
    have hm : ManualMode { appEmptyId with
        form := [⟨"candidate_id", true, "", false⟩, ⟨"disposition", true, "", false⟩] } :=
      Or.inr (by decide)
    have hv : (validateInputs { appEmptyId with
        form := [⟨"candidate_id", true, "", false⟩,
          ⟨"disposition", true, "", false⟩] }).2 = true := by
      decide
    unfold selectThenPredict at hrun
    rw [hsel] at hrun
    simp only at hrun
    cases fuel with
    | zero => exact Option.noConfusion hrun
    | succ n =>
      rw [handlePredict_manual _ _ n _ hm] at hrun
      simp only [manualPredict, hv, Bool.true_eq_false, if_false,
        displayResults_manual _ _ halfDraws_unit, Option.some.injEq, Except.ok.injEq] at hrun
      subst hrun
      simp only [predictionBlock?, List.findSome?_cons] at hblock
      rw [show (List.findSome? (fun node => match node with
          | Node.prediction d => some d
          | _ => none)) = predictionBlock? from rfl, predictionBlock?_expertItems] at hblock
      simp only [predictionBlock?, List.findSome?_cons, Option.some.injEq] at hblock
      subst hblock
      norm_num at hpred
      exact absurd hpred (by decide)

/-- C8 (amended): in a registry with unique ids, from any form that has the `candidate_id` and
`disposition` inputs, for a sample `s` whose identifier `c` is not the empty string and holds no
line break, whose disposition `d` holds no line break and is not the literal `MANUAL ENTRY`,
and whose first synthesis record `r` has the score `q`: selecting `c` and then predicting
returns a report whose final prediction is `PLANET` if `q > 0.5` and `FALSE_POSITIVE`
otherwise, shown against the ground truth `d` and tagged correct exactly when the final
prediction equals `d`, incorrect otherwise. -/
theorem select_then_predict (numToString : ℚ → String) (rand : ℕ → ℚ) (fuel : ℕ)
    (app : App) (s r : JsObject) (c d : String) (q : ℚ)
    (huniq : (app.samplesData.map fun x => x.get "candidate_id").Nodup)
    (hfc : (app.form.value? "candidate_id").isSome = true)
    (hfd : (app.form.value? "disposition").isSome = true)
    (hs : s ∈ app.samplesData)
    (hc : s.get "candidate_id" = some (Val.str c))
    (hd : s.get "disposition" = some (Val.str d))
    (hr : findById app.synthesisData c = some r)
    (hq : r.get "final_score" = some (Val.num q))
    (hne : c ≠ "") (hcl : stripNewlines c = c) (hdl : stripNewlines d = d)
    (hmark : d ≠ "MANUAL ENTRY") :
    ∃ app' block, selectThenPredict numToString rand (fuel + 1) c app = some (.ok app') ∧
      predictionBlock? app'.results = some block ∧
      block.finalPrediction = (if q > 1 / 2 then "PLANET" else "FALSE_POSITIVE") ∧
      block.groundTruthLine = some d ∧
      (block.cssClass = some "correct" ↔ block.finalPrediction = d) ∧
      (block.cssClass = some "incorrect" ↔ block.finalPrediction ≠ d) := by
  have hrun := selectThenPredict_known numToString rand fuel app s r c d q huniq hfc hfd hs hc
    hd (hcl.symm ▸ hr) hq hne (hcl.symm ▸ hne) (hdl.symm ▸ hmark)
  rw [hdl] at hrun
  refine ⟨_,
    { cssClass := some
        (if (if 1 / 2 < q then "PLANET" else "FALSE_POSITIVE") = d then "correct"
          else "incorrect")
      groundTruthLine := some d
      finalPrediction := if 1 / 2 < q then "PLANET" else "FALSE_POSITIVE"
      score := (JsNum.finite q).toFixed numToString 4
      headline := some
        (if (if 1 / 2 < q then "PLANET" else "FALSE_POSITIVE") = d then "Result: Correct"
          else "Result: Incorrect") },
    hrun, ?_, ?_, ?_, ?_, ?_⟩
  · rw [predictionBlock?_expertItems]; rfl
  · rfl
  · rfl
  · by_cases hp : (if 1 / 2 < q then "PLANET" else "FALSE_POSITIVE") = d <;> simp [hp]
  · by_cases hp : (if 1 / 2 < q then "PLANET" else "FALSE_POSITIVE") = d <;> simp [hp]

/-- C8 (amended), at the two scenarios of the specification: `K001` with `final_score = 0.82`
gives `PLANET`, tagged correct for the disposition `PLANET` and incorrect for the disposition
`FALSE_POSITIVE`. -/
theorem select_then_predict_witness :
    (∃ app' block, selectThenPredict (fun _ => "") halfDraws 1 "K001" (appK001 "" "" "") =
        some (.ok app') ∧ predictionBlock? app'.results = some block ∧
        block.finalPrediction = "PLANET" ∧ block.cssClass = some "correct") ∧
      (∃ app' block, selectThenPredict (fun _ => "") halfDraws 1 "K001" appK001FalsePositive =
        some (.ok app') ∧ predictionBlock? app'.results = some block ∧
        block.finalPrediction = "PLANET" ∧ block.cssClass = some "incorrect") := by
  have hscore : (if (82 / 100 : ℚ) > 1 / 2 then "PLANET" else "FALSE_POSITIVE") = "PLANET" := by
    norm_num
  constructor
  · obtain ⟨app', block, h1, h2, h3, _, h5, _⟩ :=
      select_then_predict (fun _ => "") halfDraws 0 (appK001 "" "" "") sampleK001 recordK001
        "K001" "PLANET" (82 / 100) (by decide) (by decide) (by decide) (by decide) (by decide)
        (by decide) (by rfl) (by rfl) (by decide) (by decide) (by decide) (by decide)
    rw [hscore] at h3
    exact ⟨app', block, h1, h2, h3, h5.mpr h3⟩
  · obtain ⟨app', block, h1, h2, h3, _, _, h6⟩ :=
      select_then_predict (fun _ => "") halfDraws 0 appK001FalsePositive
        [("candidate_id", .str "K001"), ("disposition", .str "FALSE_POSITIVE"), ("feat_a", .num 1)]
        recordK001 "K001" "FALSE_POSITIVE" (82 / 100) (by decide) (by decide) (by decide)
        (by decide) (by decide) (by decide) (by rfl) (by rfl) (by decide) (by decide)
        (by decide) (by decide)
    rw [hscore] at h3
    exact ⟨app', block, h1, h2, h3, h6.mpr (by rw [h3]; decide)⟩

/-- C9 (as stated, refuted): the claim fails for a sample with a non-empty `candidate_id` whose
disposition holds a line break (the text input stores `PLANET` for `PLA\nNET`), and it fails
for a sample without line breaks whose `candidate_id` is the empty string (the empty
identifier takes the clearing branch and the disposition field is empty, not `PLANET`). -/
theorem select_populates_readonly_counterexample :
    (¬ ∀ (numToString : ℚ → String) (app : App) (s : JsObject) (c d : String),
      (app.samplesData.map fun x => x.get "candidate_id").Nodup →
      (app.form.value? "candidate_id").isSome = true →
      (app.form.value? "disposition").isSome = true →
      s ∈ app.samplesData →
      s.get "candidate_id" = some (Val.str c) →
      s.get "disposition" = some (Val.str d) →
      c ≠ "" →
      ∃ app', handleSampleChange numToString c app = .ok app' ∧
        app'.form.value? "candidate_id" = some c ∧
        app'.form.value? "disposition" = some d) ∧
    (¬ ∀ (numToString : ℚ → String) (app : App) (s : JsObject) (c d : String),
      (app.samplesData.map fun x => x.get "candidate_id").Nodup →
      (app.form.value? "candidate_id").isSome = true →
      (app.form.value? "disposition").isSome = true →
      s ∈ app.samplesData →
      s.get "candidate_id" = some (Val.str c) →
      s.get "disposition" = some (Val.str d) →
      stripNewlines c = c → stripNewlines d = d →
      ∃ app', handleSampleChange numToString c app = .ok app' ∧
        app'.form.value? "candidate_id" = some c ∧
        app'.form.value? "disposition" = some d) := by
  constructor
  · intro h
    obtain ⟨app', hrun, _, hdisp⟩ :=
      h (fun _ => "") appLineBreakDisposition sampleLineBreakDisposition "K001" "PLA\nNET"
        (by decide) (by decide) (by decide) (by decide) (by decide) (by decide) (by decide)
    have hact : handleSampleChange (fun _ => "") "K001" appLineBreakDisposition =
        .ok { appLineBreakDisposition with
          form := [⟨"candidate_id", true, "K001", false⟩,
            ⟨"disposition", true, "PLANET", false⟩] } := by
      rfl
    rw [hact] at hrun
    injection hrun with hrun
    subst hrun
    revert hdisp
    decide
  · intro h
    obtain ⟨app', hrun, _, hdisp⟩ := h (fun _ => "") appEmptyId sampleEmptyId "" "PLANET"
      (by decide) (by decide) (by decide) (by decide) (by decide) (by decide) (by decide)
      (by decide)
    have hact : handleSampleChange (fun _ => "") "" appEmptyId =
        .ok { appEmptyId with
          form := [⟨"candidate_id", true, "", false⟩, ⟨"disposition", true, "", false⟩] } := by
      rfl
    rw [hact] at hrun
    injection hrun with hrun
    subst hrun
    revert hdisp
    decide

/-- C9 (amended): in a registry with unique ids, from any form that has the `candidate_id` and
`disposition` inputs, selecting the identifier `c` of a sample `s` of the registry, `c` not the
empty string, returns normally with the `candidate_id` field equal to `c` and the `disposition`
field equal to the disposition of `s`, each without its line breaks: the very strings of `s`
when they hold no line feed and no carriage return. -/
theorem select_populates_readonly (numToString : ℚ → String) (app : App) (s : JsObject)
    (c d : String)
    (huniq : (app.samplesData.map fun x => x.get "candidate_id").Nodup)
    (hfc : (app.form.value? "candidate_id").isSome = true)
    (hfd : (app.form.value? "disposition").isSome = true)
    (hs : s ∈ app.samplesData)
    (hc : s.get "candidate_id" = some (Val.str c))
    (hd : s.get "disposition" = some (Val.str d))
    (hne : c ≠ "") :
    ∃ app', handleSampleChange numToString c app = .ok app' ∧
      app'.form.value? "candidate_id" = some (stripNewlines c) ∧
      app'.form.value? "disposition" = some (stripNewlines d) ∧
      ((∀ ch ∈ c.toList, ch.toNat ≠ 10 ∧ ch.toNat ≠ 13) →
        app'.form.value? "candidate_id" = some c) ∧
      ((∀ ch ∈ d.toList, ch.toNat ≠ 10 ∧ ch.toNat ≠ 13) →
        app'.form.value? "disposition" = some d) := by
  have h1 := value?_after_select numToString app.form s "candidate_id" (Val.str c) hfc hc
  have h2 := value?_after_select numToString app.form s "disposition" (Val.str d) hfd hd
  refine ⟨_, handleSampleChange_known numToString app s c hne huniq hs hc, h1, h2, ?_, ?_⟩
  · intro hfree
    rw [h1]
    show some (stripNewlines c) = some c
    rw [stripNewlines_of_free c hfree]
  · intro hfree
    rw [h2]
    show some (stripNewlines d) = some d
    rw [stripNewlines_of_free d hfree]

/-- C9 (amended), at `K001` selected over a form that held a manual entry. -/
theorem select_populates_readonly_witness :
    ∃ app', handleSampleChange (fun _ => "") "K001" (appK001 "" "" "7.5") = .ok app' ∧
      app'.form.value? "candidate_id" = some "K001" ∧
      app'.form.value? "disposition" = some "PLANET" := by
  obtain ⟨app', h1, _, _, h4, h5⟩ :=
    select_populates_readonly (fun _ => "") (appK001 "" "" "7.5") sampleK001 "K001" "PLANET"
      (by decide) (by decide) (by decide) (by decide) (by decide) (by decide) (by decide)
  exact ⟨app', h1, h4 (by decide), h5 (by decide)⟩

/-- C10: in a form of the shape built by `createEmptyForm` from a sample with distinct keys
that include `candidate_id` and `disposition`, whatever its values and error flags, the
selection of the empty identifier returns normally and leaves every field, read-only or not,
with the empty string as its value; the shape is the same. -/
theorem select_none_clears_form (numToString : ℚ → String) (sample : JsObject) (app : App)
    (hkeys : sample.keys.Nodup) (hc : "candidate_id" ∈ sample.keys)
    (hd : "disposition" ∈ sample.keys)
    (hshape : app.form.shape = (createEmptyForm sample).shape) :
    ∃ app', handleSampleChange numToString "" app = .ok app' ∧
      (∀ f ∈ app'.form, f.value = "") ∧ app'.form.shape = app.form.shape := by
  have hn := names_of_shape app.form sample hshape
  refine ⟨_, handleSampleChange_none_eq numToString app (hn ▸ hkeys) (hn ▸ hc) (hn ▸ hd), ?_, ?_⟩
  · intro f hf
    simp only [clearEditable, List.map_map, List.mem_map, Function.comp_apply] at hf
    obtain ⟨g, hg, rfl⟩ := hf
    have hro := readOnly_of_shape app.form sample hshape g hg
    by_cases h1 : g.name = "candidate_id"
    · by_cases h2 : g.name = "disposition"
      · rw [h1] at h2; exact absurd h2 (by decide)
      · cases hr : g.readOnly <;> simp [h1, hr]
    · by_cases h2 : g.name = "disposition"
      · cases hr : g.readOnly <;> simp [h1, h2, hr]
      · have hr : g.readOnly = false := by rw [hro]; simp [h1, h2]
        simp [h1, h2, hr]
  · simp only [Form.shape, clearEditable, List.map_map]
    apply List.map_congr_left
    intro g _
    by_cases h1 : g.name = "candidate_id" <;> by_cases h2 : g.name = "disposition" <;>
      cases hr : g.readOnly <;> simp [h1, h2, hr]

/-- C10, at the `K001` form holding a selection and a manual edit. -/
theorem select_none_clears_form_witness :
    ∃ app', handleSampleChange (fun _ => "") "" (appK001 "K001" "PLANET" "7.5") = .ok app' ∧
      (∀ f ∈ app'.form, f.value = "") ∧
      app'.form.shape = (appK001 "K001" "PLANET" "7.5").form.shape :=
  select_none_clears_form (fun _ => "") sampleK001 (appK001 "K001" "PLANET" "7.5")
    (by decide) (by decide) (by decide) (by decide)

/-- C11: the shape of the form (the ordered names with their read-only flags) is the one
`createEmptyForm` gave it and is the same after every selection event, whatever the
identifier and whatever the keys of the sample found, after every validation, and after every
predict that returns, whether they return normally or raise. -/
theorem form_shape_invariant (numToString : ℚ → String) (rand : ℕ → ℚ) (app : App) :
    (∀ sample : JsObject, (createEmptyForm sample).shape =
      sample.keys.map fun key => (key, decide (key = "candidate_id" ∨ key = "disposition"))) ∧
    (∀ selectedId : String,
      (outcomeState (handleSampleChange numToString selectedId app)).form.shape =
        app.form.shape) ∧
    (validateInputs app).1.form.shape = app.form.shape ∧
    (∀ (fuel : ℕ) (out : Except App App), handlePredict numToString rand fuel app = some out →
      (outcomeState out).form.shape = app.form.shape) := by
  refine ⟨fun sample => ?_, fun selectedId => shape_handleSampleChange numToString selectedId app,
    ?_, fun fuel out h => shape_handlePredict numToString rand fuel app out h⟩
  · rw [shape_createEmptyForm]
    apply List.map_congr_left
    intro key _
    simp
  · rw [validateInputs_form]
    exact shape_map_flagged app.form

/-- C12 (as stated, refuted): selecting `K001`, whose disposition is `PLA\nNET`, leaves
`PLANET` in the disposition field: the text input drops the line feed, so the field does not
hold the value of the sample for that key. -/
theorem select_overwrites_shared_fields_counterexample :
    ¬ ∀ (numToString : ℚ → String) (selectedId : String) (app : App) (s : JsObject),
      (app.form.map Field.name).Nodup →
      selectedId ≠ "" →
      findById app.samplesData selectedId = some s →
      handleSampleChange numToString selectedId app =
        .ok { app with
          form := app.form.map fun f =>
            match s.get f.name with
            | some v => { f with value := v.toDisplay numToString }
            | none => f } := by
  intro h
  have hrun := h (fun _ => "") "K001" appLineBreakDisposition sampleLineBreakDisposition
    (by decide) (by decide) (by rfl)
  have hact : handleSampleChange (fun _ => "") "K001" appLineBreakDisposition =
      .ok { appLineBreakDisposition with
        form := [⟨"candidate_id", true, "K001", false⟩,
          ⟨"disposition", true, "PLANET", false⟩] } := by
    rfl
  rw [hact] at hrun
  injection hrun with hrun
  have hform := congrArg App.form hrun
  revert hform
  decide

/-- C12 (amended): when the identifier is not empty and the lookup finds the sample `s`, in a
form with one input per name, the selection returns normally; each field whose name is a key of
`s` holds the string of the value of `s` at that key without its line feeds and carriage
returns, each other field is untouched, and nothing but the form changes. -/
theorem select_overwrites_shared_fields (numToString : ℚ → String) (selectedId : String)
    (app : App) (s : JsObject) (hnd : (app.form.map Field.name).Nodup)
    (hid : selectedId ≠ "") (hs : findById app.samplesData selectedId = some s) :
    handleSampleChange numToString selectedId app =
      .ok { app with
        form := app.form.map fun f =>
          match s.get f.name with
          | some v => { f with value := stripNewlines (v.toDisplay numToString) }
          | none => f } := by
  unfold handleSampleChange
  rw [if_neg hid, hs]
  simp only
  rw [populateFields_eq_map numToString s s.keys app.form hnd]
  congr 2
  apply List.map_congr_left
  intro f _
  cases hg : s.get f.name with
  | none =>
    have hk : f.name ∉ s.keys := by
      intro hmem
      obtain ⟨v, hv⟩ := get_of_mem_keys s f.name hmem
      rw [hg] at hv
      exact Option.noConfusion hv
    simp [hk]
  | some v =>
    have hk : f.name ∈ s.keys := mem_keys_of_get s f.name v hg
    simp [hk, shownValue, hg]

/-- C12 (amended), at `K001` selected over a form that held a manual entry. -/
theorem select_overwrites_shared_fields_witness :
    handleSampleChange (fun _ => "one") "K001" (appK001 "" "" "7.5") =
      .ok { appK001 "" "" "7.5" with
        form := (appK001 "" "" "7.5").form.map fun f =>
          match sampleK001.get f.name with
          | some v => { f with value := stripNewlines (v.toDisplay (fun _ => "one")) }
          | none => f } :=
  select_overwrites_shared_fields (fun _ => "one") "K001" (appK001 "" "" "7.5") sampleK001
    (by decide) (by decide) (by rfl)

/-- C13: `validateInputs`, whatever it returns, leaves the name, the read-only flag and the
value of every field as they were, and the two collections too; the new state differs from the
old one in the error flags and in the results area only. -/
theorem validate_preserves_values (app : App) :
    (validateInputs app).1.form.map (fun f => (f.name, f.readOnly, f.value)) =
        app.form.map (fun f => (f.name, f.readOnly, f.value)) ∧
    (validateInputs app).1 =
      { app with
        form := app.form.map fun f => { f with error := fieldInvalid f }
        results := if (validateInputs app).2 = true then []
          else [Node.errorBox validationMessage] } := by
  constructor
  · rw [validateInputs_form, List.map_map]
    rfl
  · have h1 := validateInputs_form app
    have h2 := validateInputs_results app
    have h3 := validateInputs_data app
    cases hx : (validateInputs app).1 with
    | mk sd yd f r =>
      rw [hx] at h1 h2 h3
      simp only at h1 h2 h3
      simp only [App.mk.injEq]
      exact ⟨h3.1, h3.2, h1, h2⟩

/-- C14 (the code fails the claim): for the result whose one expert key is
`expert_proba_1_proba`, which starts with `expert_` and ends with `_proba`, `displayResults`
emits one expert line and the name on it is `expert 1 proba`, the key without the first
occurrence of `_proba`; the key with its suffix `_proba` removed reads `expert proba 1`. -/
theorem expert_name_removes_first_occurrence (numToString : ℚ → String)
    (groundTruth : String) (app : App) :
    isExpertKey "expert_proba_1_proba" = true ∧
    (expertLines (outcomeState
        (displayResults numToString resultInnerProba groundTruth app)).results).map Prod.fst =
      ["expert 1 proba"] ∧
    suffixStrippedName "expert_proba_1_proba" = "expert proba 1" := by
  refine ⟨by decide, ?_, by decide⟩
  rw [expertLines_displayResults]
  have hk : resultInnerProba.keys.filter isExpertKey = ["expert_proba_1_proba"] := by decide
  rw [hk]
  simp only [List.map_cons, List.map_nil]
  have hn : expertName "expert_proba_1_proba" = "expert 1 proba" := by decide
  rw [hn]

/-- C15: for a result whose `final_score` is the number `q`, `displayResults` returns a report
whose final prediction is `PLANET` exactly when `q > 0.5` and `FALSE_POSITIVE` exactly when
`q ≤ 0.5`, the score `0.5` included. -/
theorem strict_decision_threshold (numToString : ℚ → String) (result : JsObject)
    (groundTruth : String) (q : ℚ) (app : App)
    (hq : result.get "final_score" = some (Val.num q)) :
    ∃ app' block, displayResults numToString result groundTruth app = .ok app' ∧
      predictionBlock? app'.results = some block ∧
      (block.finalPrediction = "PLANET" ↔ q > 1 / 2) ∧
      (block.finalPrediction = "FALSE_POSITIVE" ↔ q ≤ 1 / 2) := by
  refine ⟨_, _, displayResults_of_score numToString result groundTruth q app hq,
    predictionBlock?_report numToString result groundTruth _, ?_, ?_⟩
  · by_cases hg : groundTruth = manualEntryMarker <;> by_cases hs : 1 / 2 < q <;>
      simp [hg, hs]
  · by_cases hg : groundTruth = manualEntryMarker <;> by_cases hs : 1 / 2 < q <;>
      simp [hg, hs, not_lt.mp, le_of_lt]

/-- C15, at a `final_score` of exactly `0.5`: the report reads `FALSE_POSITIVE`. -/
theorem strict_decision_threshold_witness :
    ∃ app' block,
      displayResults (fun _ => "") [("final_score", Val.num (1 / 2))] "PLANET"
        (appK001 "K001" "PLANET" "1") = .ok app' ∧
      predictionBlock? app'.results = some block ∧ block.finalPrediction = "FALSE_POSITIVE" := by
  obtain ⟨app', block, h1, h2, _, h4⟩ :=
    strict_decision_threshold (fun _ => "") [("final_score", Val.num (1 / 2))] "PLANET" (1 / 2)
      (appK001 "K001" "PLANET" "1") (by rfl)
  exact ⟨app', block, h1, h2, h4.mpr (le_refl _)⟩

/-- C16: in manual mode with inputs that pass validation, the predict is `displayResults` of
the synthesised result with the ground truth `MANUAL ENTRY`; it returns a report that starts
with the notice `Prediction based on manual input.`, followed by the expert lines and one final
block that has no ground-truth line, no correct/incorrect class and no `Result:` headline. -/
theorem manual_entry_has_no_verdict (numToString : ℚ → String) (rand : ℕ → ℚ) (fuel : ℕ)
    (app : App) (hm : ManualMode app) (hv : (validateInputs app).2 = true) :
    handlePredict numToString rand (fuel + 1) app =
        some (displayResults numToString (synthesize rand) "MANUAL ENTRY"
          (validateInputs app).1) ∧
    ∃ block : PredictionDiv,
      handlePredict numToString rand (fuel + 1) app =
        some (.ok { (validateInputs app).1 with
          results :=
            Node.notice "Prediction based on manual input." ::
              (expertItems numToString (synthesize rand) ++ [Node.prediction block]) }) ∧
      block.groundTruthLine = none ∧ block.cssClass = none ∧ block.headline = none := by
  have hrun : handlePredict numToString rand (fuel + 1) app =
      some (displayResults numToString (synthesize rand) "MANUAL ENTRY"
        (validateInputs app).1) := by
    rw [handlePredict_manual numToString rand fuel app hm]
    simp only [manualPredict, hv, Bool.true_eq_false, if_false]
    rfl
  refine ⟨hrun, ?_⟩
  rw [hrun, show ("MANUAL ENTRY" : String) = manualEntryMarker from rfl,
    displayResults_of_score numToString (synthesize rand) manualEntryMarker _ _
      (synthesize_score rand)]
  simp only [if_true, ne_eq, not_true_eq_false, if_false, List.singleton_append,
    List.cons_append, List.nil_append]
  exact ⟨_, rfl, rfl, rfl, rfl⟩

/-- C16, at the specification's scenario: empty `candidate_id`, feature value `"42"`. -/
theorem manual_entry_has_no_verdict_witness :
    handlePredict (fun _ => "") halfDraws 1 (appK001 "" "" "42") =
        some (displayResults (fun _ => "") (synthesize halfDraws) "MANUAL ENTRY"
          (validateInputs (appK001 "" "" "42")).1) ∧
    ∃ block : PredictionDiv,
      handlePredict (fun _ => "") halfDraws 1 (appK001 "" "" "42") =
        some (.ok { (validateInputs (appK001 "" "" "42")).1 with
          results :=
            Node.notice "Prediction based on manual input." ::
              (expertItems (fun _ => "") (synthesize halfDraws) ++ [Node.prediction block]) }) ∧
      block.groundTruthLine = none ∧ block.cssClass = none ∧ block.headline = none :=
  manual_entry_has_no_verdict (fun _ => "") halfDraws 0 (appK001 "" "" "42")
    (Or.inr (by decide)) (by decide)

/-- C17: `createEmptyForm` yields one field per key of the sample, in key order, each with the
empty string as value and no error flag, read-only exactly when its name is `candidate_id` or
`disposition`. -/
theorem createEmptyForm_spec (sample : JsObject) :
    (createEmptyForm sample).map Field.name = sample.keys ∧
    (createEmptyForm sample).length = sample.length ∧
    (∀ f ∈ createEmptyForm sample, f.value = "" ∧ f.error = false ∧
      (f.readOnly = true ↔ f.name = "candidate_id" ∨ f.name = "disposition")) := by
  refine ⟨?_, ?_, ?_⟩
  · simp [createEmptyForm, List.map_map, Function.comp_def]
  · simp [createEmptyForm, JsObject.keys]
  · intro f hf
    simp only [createEmptyForm, List.mem_map] at hf
    obtain ⟨key, _, rfl⟩ := hf
    simp

/-- C18: in lookup mode the predict is `displayResults(r, g)`, and a second predict on the
state the first one left, with the same synthesis data, is `displayResults(r, g)` again with
the very same outcome: same record, same report, same state. -/
theorem lookup_is_idempotent (numToString : ℚ → String) (rand rand' : ℕ → ℚ)
    (fuel fuel' : ℕ) (app : App) (c g : String) (r : JsObject) (h : LookupHit app c g r) :
    handlePredict numToString rand (fuel + 1) app = some (displayResults numToString r g app) ∧
    handlePredict numToString rand' (fuel' + 1)
        (outcomeState (displayResults numToString r g app)) =
      some (displayResults numToString r g app) := by
  refine ⟨handlePredict_hit numToString rand fuel app c g r h, ?_⟩
  have hfr := form_displayResults numToString r g app
  rw [handlePredict_hit numToString rand' fuel' _ c g r
    (lookupHit_frame app _ c g r h hfr.1 hfr.2.2)]
  rcases displayResults_frame numToString r g app
      (outcomeState (displayResults numToString r g app)) with ⟨res, h1, h2⟩ | ⟨res, h1, h2⟩
  · rw [h2, h1]; rfl
  · rw [h2, h1]; rfl

/-- C18, at `K001` selected with disposition `PLANET`. -/
theorem lookup_is_idempotent_witness :
    handlePredict (fun _ => "") halfDraws 1 (appK001 "K001" "PLANET" "1") =
        some (displayResults (fun _ => "") recordK001 "PLANET" (appK001 "K001" "PLANET" "1")) ∧
    handlePredict (fun _ => "") halfDraws 1
        (outcomeState (displayResults (fun _ => "") recordK001 "PLANET"
          (appK001 "K001" "PLANET" "1"))) =
      some (displayResults (fun _ => "") recordK001 "PLANET" (appK001 "K001" "PLANET" "1")) :=
  lookup_is_idempotent (fun _ => "") halfDraws halfDraws 0 0 (appK001 "K001" "PLANET" "1")
    "K001" "PLANET" recordK001 ⟨by decide, by decide, by decide, by rfl⟩

/-- C19: two states in lookup mode with the same `candidate_id` value, the same `disposition`
value and the same matching record get the same report from the predict, both returning or
both raising, whatever their other fields hold and with no validation of them. -/
theorem lookup_ignores_features (numToString : ℚ → String) (rand₁ rand₂ : ℕ → ℚ)
    (fuel₁ fuel₂ : ℕ) (app₁ app₂ : App) (c g : String) (r : JsObject)
    (h₁ : LookupHit app₁ c g r) (h₂ : LookupHit app₂ c g r) :
    (∃ report, handlePredict numToString rand₁ (fuel₁ + 1) app₁ =
          some (.ok { app₁ with results := report }) ∧
        handlePredict numToString rand₂ (fuel₂ + 1) app₂ =
          some (.ok { app₂ with results := report })) ∨
      (∃ report, handlePredict numToString rand₁ (fuel₁ + 1) app₁ =
          some (.error { app₁ with results := report }) ∧
        handlePredict numToString rand₂ (fuel₂ + 1) app₂ =
          some (.error { app₂ with results := report })) := by
  rw [handlePredict_hit numToString rand₁ fuel₁ app₁ c g r h₁,
    handlePredict_hit numToString rand₂ fuel₂ app₂ c g r h₂]
  rcases displayResults_frame numToString r g app₁ app₂ with ⟨res, e1, e2⟩ | ⟨res, e1, e2⟩
  · exact Or.inl ⟨res, by rw [e1], by rw [e2]⟩
  · exact Or.inr ⟨res, by rw [e1], by rw [e2]⟩

/-- C19, at `K001` with a numeric feature value in one form and `"abc"` in the other. -/
theorem lookup_ignores_features_witness :
    (∃ report, handlePredict (fun _ => "") halfDraws 1 (appK001 "K001" "PLANET" "1") =
          some (.ok { appK001 "K001" "PLANET" "1" with results := report }) ∧
        handlePredict (fun _ => "") halfDraws 1 (appK001 "K001" "PLANET" "abc") =
          some (.ok { appK001 "K001" "PLANET" "abc" with results := report })) ∨
      (∃ report, handlePredict (fun _ => "") halfDraws 1 (appK001 "K001" "PLANET" "1") =
          some (.error { appK001 "K001" "PLANET" "1" with results := report }) ∧
        handlePredict (fun _ => "") halfDraws 1 (appK001 "K001" "PLANET" "abc") =
          some (.error { appK001 "K001" "PLANET" "abc" with results := report })) :=
  lookup_ignores_features (fun _ => "") halfDraws halfDraws 0 0 (appK001 "K001" "PLANET" "1")
    (appK001 "K001" "PLANET" "abc") "K001" "PLANET" recordK001
    ⟨by decide, by decide, by decide, by rfl⟩ ⟨by decide, by decide, by decide, by rfl⟩

/-- C20: for a result whose `final_score` is a number and any ground-truth string `g`,
`displayResults` returns a report whose final block has the ground-truth line `g` together
with one of the classes `correct`, `incorrect` exactly when `g` is not the literal
`MANUAL ENTRY`; for that literal the report starts with the manual notice and the block has no
line, class or headline; for any other `g` that is neither `PLANET` nor `FALSE_POSITIVE` the
class is `incorrect`; and a lookup-mode predict whose disposition field holds `g` renders this
very report. -/
theorem marker_is_in_band (numToString : ℚ → String) (result : JsObject) (g : String)
    (q : ℚ) (app : App) (hq : result.get "final_score" = some (Val.num q)) :
    ∃ block : PredictionDiv,
      displayResults numToString result g app =
        .ok { app with
          results :=
            (if g = "MANUAL ENTRY" then [Node.notice "Prediction based on manual input."]
              else []) ++ expertItems numToString result ++ [Node.prediction block] } ∧
      ((block.groundTruthLine = some g ∧
          (block.cssClass = some "correct" ∨ block.cssClass = some "incorrect")) ↔
        g ≠ "MANUAL ENTRY") ∧
      (g = "MANUAL ENTRY" →
        block.groundTruthLine = none ∧ block.cssClass = none ∧ block.headline = none) ∧
      (g ≠ "MANUAL ENTRY" → g ≠ "PLANET" → g ≠ "FALSE_POSITIVE" →
        block.cssClass = some "incorrect" ∧ block.headline = some "Result: Incorrect") ∧
      (∀ (rand : ℕ → ℚ) (fuel : ℕ) (st : App) (c : String), LookupHit st c g result →
        handlePredict numToString rand (fuel + 1) st =
          some (.ok { st with
            results :=
              (if g = "MANUAL ENTRY" then [Node.notice "Prediction based on manual input."]
                else []) ++ expertItems numToString result ++ [Node.prediction block] })) := by
  refine ⟨_, displayResults_of_score numToString result g q app hq, ?_, ?_, ?_, ?_⟩
  · by_cases hg : g = manualEntryMarker
    · rw [if_neg (not_not.mpr hg)]
      constructor
      · rintro ⟨h, _⟩
        exact Option.noConfusion h
      · intro h
        exact absurd hg h
    · rw [if_pos hg]
      refine ⟨fun _ => hg, fun _ => ⟨rfl, ?_⟩⟩
      by_cases hp : (if 1 / 2 < q then "PLANET" else "FALSE_POSITIVE") = g
      · exact Or.inl (by rw [if_pos hp])
      · exact Or.inr (by rw [if_neg hp])
  · intro hg
    have hg' : g = manualEntryMarker := hg
    rw [if_neg (not_not.mpr hg')]
    exact ⟨rfl, rfl, rfl⟩
  · intro hg hp hf
    have hg' : g ≠ manualEntryMarker := hg
    have hne : ¬ (if 1 / 2 < q then "PLANET" else "FALSE_POSITIVE") = g := by
      by_cases hs : 1 / 2 < q
      · rw [if_pos hs]; exact fun e => hp e.symm
      · rw [if_neg hs]; exact fun e => hf e.symm
    rw [if_pos hg']
    exact ⟨by simp only [if_neg hne], by simp only [if_neg hne]⟩
  · intro rand fuel st c hit
    rw [handlePredict_hit numToString rand fuel st c g result hit,
      displayResults_of_score numToString result g q st hq]
    rfl

/-- C20, at the record of `K001` with the ground truth `MANUAL ENTRY`. -/
theorem marker_is_in_band_witness :
    ∃ block : PredictionDiv,
      displayResults (fun _ => "") recordK001 "MANUAL ENTRY"
          (appK001 "K001" "MANUAL ENTRY" "1") =
        .ok { appK001 "K001" "MANUAL ENTRY" "1" with
          results :=
            Node.notice "Prediction based on manual input." ::
              (expertItems (fun _ => "") recordK001 ++ [Node.prediction block]) } ∧
      block.groundTruthLine = none ∧ block.cssClass = none ∧ block.headline = none ∧
      handlePredict (fun _ => "") halfDraws 1 (appK001 "K001" "MANUAL ENTRY" "1") =
        some (.ok { appK001 "K001" "MANUAL ENTRY" "1" with
          results :=
            Node.notice "Prediction based on manual input." ::
              (expertItems (fun _ => "") recordK001 ++ [Node.prediction block]) }) := by
  obtain ⟨block, h1, _, h3, _, h5⟩ :=
    marker_is_in_band (fun _ => "") recordK001 "MANUAL ENTRY" (82 / 100)
      (appK001 "K001" "MANUAL ENTRY" "1") (by rfl)
  have h := h3 rfl
  exact ⟨block, h1, h.1, h.2.1, h.2.2,
    h5 halfDraws 0 (appK001 "K001" "MANUAL ENTRY" "1") "K001"
      ⟨by decide, by decide, by decide, by rfl⟩⟩

end ExoPlanetHunt
